import Mathlib

/-!
Verification of the key-event resolution / report-generation pipeline and the
radio link of the Keyboards-firmware repository, via a shallow embedding of
the relevant Rust sources (key_lib/src/codes.rs, keys.rs, position.rs,
report.rs and tychocs/src/radio/{radio,inner_radio,packet}.rs) into Lean.

Machine integers (u8, u16, usize) are modelled as `Nat`, with explicit
`% 2^w` at the points where the source performs a narrowing cast or where
wrap-around is possible; fallible operations return `Except`/`Option`, and a
Rust panic (out-of-bounds index, `unwrap` on `Err`) is modelled as `none`.
-/

namespace Keyboards

/-- Serialization errors of the `sequential_storage::map` interface, as used
by `codes.rs`. -/
inductive SerializationError where
  | bufferTooSmall
  | invalidFormat
deriving DecidableEq, Repr

/-- Modelled from the spec: the `KeyCodes` enum lives in
`key_lib/src/scan_codes.rs`, which is not under `src/`.  Per the spec it is a
closed set of HID usage codes that converts to a byte (`code as u8`) and back
(`u8 -> KeyCodes` via `.into()`), the two conversions being mutually inverse
on the enum's values (the round-trip property of spec section 8).  It is
modelled as the bytes themselves. -/
def KeyCodes := Fin 256
deriving DecidableEq, Repr

/-- Modelled from the spec: `KeyCodes::Undefined`, the code every keymap cell
defaults to (`ScanCodeBehavior::default()` in `codes.rs` is
`Single(KeyCodes::Undefined)`). -/
def KeyCodes.undefined : KeyCodes := ⟨0, by decide⟩

/-- `code as u8` (`KeyCodes` is `#[repr(u8)]`). -/
def KeyCodes.toByte (c : KeyCodes) : Nat := c.1

/-- `u8 -> KeyCodes` conversion (`buffer[i].into()` in `codes.rs`). -/
def KeyCodes.ofByte (b : Nat) : KeyCodes := ⟨b % 256, Nat.mod_lt _ (by decide)⟩

/-- `ScanCodeBehavior` from `codes.rs`: what one (key, layer) cell produces
when pressed.  `other_index` is a `usize` in the source, `ChangeConfig`
carries a `u8`. -/
inductive ScanCodeBehavior where
  | single (code : KeyCodes)
  | double (code0 code1 : KeyCodes)
  | triple (code0 code1 code2 : KeyCodes)
  | combinedKey (other_index : Nat) (normal_code combined_code : KeyCodes)
  | changeConfig (config_num : Fin 256)
deriving DecidableEq, Repr

/-- `ScanCodeBehavior::default()`. -/
def ScanCodeBehavior.default : ScanCodeBehavior := .single .undefined

/-- The tag enum `HidScanCodeType` from `codes.rs`. -/
inductive HidScanCodeType where
  | single
  | double
  | triple
  | combinedKey
  | changeConfig
deriving DecidableEq, Repr

/-- `HidScanCodeType::try_from(b)` (derived `TryFromPrimitive` over the
`repr(u8)` discriminants 0..4). -/
def HidScanCodeType.tryFromByte (b : Nat) : Option HidScanCodeType :=
  match b with
  | 0 => some .single
  | 1 => some .double
  | 2 => some .triple
  | 3 => some .combinedKey
  | 4 => some .changeConfig
  | _ => none

def SINGLE_SERIAL_LENGTH : Nat := 2
def DOUBLE_SERIAL_LENGTH : Nat := 3
def TRIPLE_SERIAL_LENGTH : Nat := 4
def COMBINED_KEY_SERIAL_LENGTH : Nat := 4
def CHANGE_CONFIG_SERIAL_LENGTH : Nat := 2

/-- `HidScanCodeType::get_len`. -/
def HidScanCodeType.get_len : HidScanCodeType → Nat
  | .single => SINGLE_SERIAL_LENGTH
  | .double => DOUBLE_SERIAL_LENGTH
  | .triple => TRIPLE_SERIAL_LENGTH
  | .combinedKey => COMBINED_KEY_SERIAL_LENGTH
  | .changeConfig => CHANGE_CONFIG_SERIAL_LENGTH

/-- `ScanCodeBehavior::into_buffer_len`. -/
def ScanCodeBehavior.into_buffer_len : ScanCodeBehavior → Nat
  | .single _ => SINGLE_SERIAL_LENGTH
  | .double _ _ => DOUBLE_SERIAL_LENGTH
  | .triple _ _ _ => TRIPLE_SERIAL_LENGTH
  | .combinedKey _ _ _ => COMBINED_KEY_SERIAL_LENGTH
  | .changeConfig _ => CHANGE_CONFIG_SERIAL_LENGTH

/-- The bytes `into_buffer` writes into `buffer[0..len]`.  Note the source
writes `other_index as u8` for `CombinedKey`, a narrowing cast: modelled as
`% 256`. -/
def ScanCodeBehavior.encBytes : ScanCodeBehavior → List Nat
  | .single code => [0, code.toByte]
  | .double code0 code1 => [1, code0.toByte, code1.toByte]
  | .triple code0 code1 code2 => [2, code0.toByte, code1.toByte, code2.toByte]
  | .combinedKey other_index normal_code combined_code =>
      [3, normal_code.toByte, combined_code.toByte, other_index % 256]
  | .changeConfig config_num => [4, config_num.1]

/-- `ScanCodeBehavior::into_buffer`: serialize into the first
`into_buffer_len` bytes of `buffer`, leaving the rest untouched; fails with
`BufferTooSmall` when the buffer is shorter than the variant's fixed
length. -/
def ScanCodeBehavior.into_buffer (v : ScanCodeBehavior) (buffer : List Nat) :
    Except SerializationError (List Nat) :=
  if buffer.length < v.into_buffer_len then
    .error .bufferTooSmall
  else
    .ok (v.encBytes ++ buffer.drop v.into_buffer_len)

/-- `ScanCodeBehavior::deserialize_from`.  The source reads the tag byte
`buffer[0]` before any length check; on an empty buffer that access panics,
modelled as `none`.  Otherwise the tag is mapped through
`HidScanCodeType::try_from` (unknown tag: `InvalidFormat`), the buffer length
is checked against the tag's fixed length (`BufferTooSmall`), and the payload
bytes are read. -/
def ScanCodeBehavior.deserialize_from (buffer : List Nat) :
    Option (Except SerializationError ScanCodeBehavior) :=
  match buffer with
  | [] => none
  | b0 :: rest =>
    some <|
      match HidScanCodeType.tryFromByte b0 with
      | none => .error .invalidFormat
      | some t =>
        let buffer := b0 :: rest
        match t with
        | .single =>
          if buffer.length < SINGLE_SERIAL_LENGTH then .error .bufferTooSmall
          else .ok (.single (.ofByte (buffer.getD 1 0)))
        | .double =>
          if buffer.length < DOUBLE_SERIAL_LENGTH then .error .bufferTooSmall
          else .ok (.double (.ofByte (buffer.getD 1 0)) (.ofByte (buffer.getD 2 0)))
        | .triple =>
          if buffer.length < TRIPLE_SERIAL_LENGTH then .error .bufferTooSmall
          else
            .ok (.triple (.ofByte (buffer.getD 1 0)) (.ofByte (buffer.getD 2 0))
              (.ofByte (buffer.getD 3 0)))
        | .combinedKey =>
          if buffer.length < COMBINED_KEY_SERIAL_LENGTH then .error .bufferTooSmall
          else
            .ok (.combinedKey (buffer.getD 3 0) (.ofByte (buffer.getD 1 0))
              (.ofByte (buffer.getD 2 0)))
        | .changeConfig =>
          if buffer.length < CHANGE_CONFIG_SERIAL_LENGTH then .error .bufferTooSmall
          else .ok (.changeConfig ⟨buffer.getD 1 0 % 256, Nat.mod_lt _ (by decide)⟩)

/-- `other_index` fits in a byte (only constraining `combinedKey`; the
narrowing cast `other_index as u8` in `into_buffer` is lossless exactly
then). -/
def ScanCodeBehavior.byteSized : ScanCodeBehavior → Prop
  | .combinedKey other_index _ _ => other_index < 256
  | _ => True

instance (v : ScanCodeBehavior) : Decidable v.byteSized := by
  cases v <;> simp [ScanCodeBehavior.byteSized] <;> infer_instance

/-- One cell-read step of `Keys::load_keys_from_com` (`keys.rs`): pop the tag
byte from the stream, map it through `try_into` (`InvalidFormat` aborts the
load), pop `get_len - 1` further bytes, and `deserialize_from(..).unwrap()`
the assembled buffer.  A blocked `pop`/`pop_slice` (stream exhausted) and a
panicking `unwrap` are both modelled as `none`. -/
def load_com_cell (stream : List Nat) :
    Option (Except SerializationError (ScanCodeBehavior × List Nat)) :=
  match stream with
  | [] => none
  | b0 :: rest =>
    match HidScanCodeType.tryFromByte b0 with
    | none => some (.error .invalidFormat)
    | some t =>
      if rest.length < t.get_len - 1 then none
      else
        match ScanCodeBehavior.deserialize_from (b0 :: rest.take (t.get_len - 1)) with
        | some (.ok code) => some (.ok (code, rest.drop (t.get_len - 1)))
        | _ => none

end Keyboards

namespace Keyboards

/-- `KeyCodes.ofByte` inverts `KeyCodes.toByte`. -/
theorem KeyCodes.ofByte_toByte (c : KeyCodes) : KeyCodes.ofByte c.toByte = c :=
  Fin.ext (Nat.mod_eq_of_lt c.2)

/-- C1 (counterexample): the claim's round trip fails at
`CombinedKey { other_index: 256, .. }` — `into_buffer` writes
`other_index as u8` (a narrowing cast), so decoding the encoded bytes
yields `other_index = 0`, not 256. -/
theorem scanCode_roundtrip_fails_at_256 :
    (ScanCodeBehavior.combinedKey 256 .undefined .undefined).into_buffer [0, 0, 0, 0] =
      .ok [3, 0, 0, 0] ∧
    ScanCodeBehavior.deserialize_from [3, 0, 0, 0] =
      some (.ok (.combinedKey 0 .undefined .undefined)) ∧
    ScanCodeBehavior.combinedKey 0 .undefined .undefined ≠
      ScanCodeBehavior.combinedKey 256 .undefined .undefined :=
  ⟨rfl, rfl, by decide⟩

/-- C1 (amended): for every `ScanCodeBehavior` value, encoding into a
buffer of exactly `into_buffer_len()` bytes succeeds and encoding into a
buffer of `into_buffer_len() - 1` bytes fails with `BufferTooSmall`; and
for every value whose `CombinedKey` `other_index` fits in a byte, decoding
the encoded bytes yields the value back. -/
theorem scanCode_roundtrip (v : ScanCodeBehavior) (buffer buffer' : List Nat)
    (hlen : buffer.length = v.into_buffer_len)
    (hlen' : buffer'.length = v.into_buffer_len - 1) :
    v.into_buffer buffer = .ok v.encBytes ∧
    v.into_buffer buffer' = .error .bufferTooSmall ∧
    (v.byteSized →
      ScanCodeBehavior.deserialize_from v.encBytes = some (.ok v)) := by
  have hdrop : buffer.drop v.into_buffer_len = [] :=
    List.drop_eq_nil_of_le (le_of_eq hlen)
  refine ⟨?_, ?_, ?_⟩
  · rw [ScanCodeBehavior.into_buffer, if_neg (by omega), hdrop, List.append_nil]
  · have h1 : 1 ≤ v.into_buffer_len := by
      cases v <;> simp [ScanCodeBehavior.into_buffer_len, SINGLE_SERIAL_LENGTH,
        DOUBLE_SERIAL_LENGTH, TRIPLE_SERIAL_LENGTH, COMBINED_KEY_SERIAL_LENGTH,
        CHANGE_CONFIG_SERIAL_LENGTH]
    rw [ScanCodeBehavior.into_buffer, if_pos (by omega)]
  · intro hv
    cases v with
    | single c =>
      have h : ScanCodeBehavior.deserialize_from (ScanCodeBehavior.encBytes (.single c)) =
          some (.ok (.single (KeyCodes.ofByte c.toByte))) := rfl
      rw [h, KeyCodes.ofByte_toByte]
    | double c0 c1 =>
      have h : ScanCodeBehavior.deserialize_from (ScanCodeBehavior.encBytes (.double c0 c1)) =
          some (.ok (.double (KeyCodes.ofByte c0.toByte) (KeyCodes.ofByte c1.toByte))) := rfl
      rw [h, KeyCodes.ofByte_toByte, KeyCodes.ofByte_toByte]
    | triple c0 c1 c2 =>
      have h : ScanCodeBehavior.deserialize_from
            (ScanCodeBehavior.encBytes (.triple c0 c1 c2)) =
          some (.ok (.triple (KeyCodes.ofByte c0.toByte) (KeyCodes.ofByte c1.toByte)
            (KeyCodes.ofByte c2.toByte))) := rfl
      rw [h, KeyCodes.ofByte_toByte, KeyCodes.ofByte_toByte, KeyCodes.ofByte_toByte]
    | combinedKey oi n c =>
      have hoi : oi < 256 := hv
      have h : ScanCodeBehavior.deserialize_from
            (ScanCodeBehavior.encBytes (.combinedKey oi n c)) =
          some (.ok (.combinedKey (oi % 256) (KeyCodes.ofByte n.toByte)
            (KeyCodes.ofByte c.toByte))) := rfl
      rw [h, KeyCodes.ofByte_toByte, KeyCodes.ofByte_toByte, Nat.mod_eq_of_lt hoi]
    | changeConfig cn =>
      have h : ScanCodeBehavior.deserialize_from
            (ScanCodeBehavior.encBytes (.changeConfig cn)) =
          some (.ok (.changeConfig ⟨cn.1 % 256, Nat.mod_lt _ (by decide)⟩)) := rfl
      have h2 : (⟨cn.1 % 256, Nat.mod_lt _ (by decide)⟩ : Fin 256) = cn :=
        Fin.ext (Nat.mod_eq_of_lt cn.2)
      rw [h, h2]

/-- C1 witness. -/
theorem scanCode_roundtrip_witness :
    (ScanCodeBehavior.double ⟨4, by decide⟩ ⟨5, by decide⟩).into_buffer [9, 9, 9] =
      .ok [1, 4, 5] ∧
    (ScanCodeBehavior.double ⟨4, by decide⟩ ⟨5, by decide⟩).into_buffer [9, 9] =
      .error .bufferTooSmall ∧
    ((ScanCodeBehavior.double ⟨4, by decide⟩ ⟨5, by decide⟩).byteSized →
      ScanCodeBehavior.deserialize_from [1, 4, 5] =
        some (.ok (.double ⟨4, by decide⟩ ⟨5, by decide⟩))) :=
  scanCode_roundtrip (.double ⟨4, by decide⟩ ⟨5, by decide⟩) [9, 9, 9] [9, 9]
    rfl rfl

/-- C10: `deserialize_from` panics (out-of-bounds tag read) on the empty
buffer rather than returning `BufferTooSmall`; on every buffer of length ≥ 1
it returns a result (`Ok`, `InvalidFormat` or `BufferTooSmall`); and the
per-cell read step of `load_keys_from_com` always hands `deserialize_from` a
buffer of exactly the tag's fixed length (≥ 1), so the call and its
`unwrap` succeed. -/
theorem deserialize_domain :
    ScanCodeBehavior.deserialize_from [] = none ∧
    (∀ (b : Nat) (bs : List Nat),
      (ScanCodeBehavior.deserialize_from (b :: bs)).isSome) ∧
    (∀ (b : Nat) (rest : List Nat) (t : HidScanCodeType),
      HidScanCodeType.tryFromByte b = some t →
      t.get_len - 1 ≤ rest.length →
      ∃ code, load_com_cell (b :: rest) =
        some (.ok (code, rest.drop (t.get_len - 1)))) := by
  refine ⟨rfl, fun b bs => by simp [ScanCodeBehavior.deserialize_from], ?_⟩
  intro b rest t ht hrest
  cases t with
  | single =>
    have hr : 1 ≤ rest.length := by
      simpa [HidScanCodeType.get_len, SINGLE_SERIAL_LENGTH] using hrest
    match rest, hr with
    | b1 :: r1, _ =>
      exact ⟨.single (.ofByte b1), by
        simp [load_com_cell, ht, ScanCodeBehavior.deserialize_from,
          HidScanCodeType.get_len, SINGLE_SERIAL_LENGTH]⟩
  | double =>
    have hr : 2 ≤ rest.length := by
      simpa [HidScanCodeType.get_len, DOUBLE_SERIAL_LENGTH] using hrest
    match rest, hr with
    | b1 :: b2 :: r1, _ =>
      exact ⟨.double (.ofByte b1) (.ofByte b2), by
        simp [load_com_cell, ht, ScanCodeBehavior.deserialize_from,
          HidScanCodeType.get_len, DOUBLE_SERIAL_LENGTH]⟩
  | triple =>
    have hr : 3 ≤ rest.length := by
      simpa [HidScanCodeType.get_len, TRIPLE_SERIAL_LENGTH] using hrest
    match rest, hr with
    | b1 :: b2 :: b3 :: r1, _ =>
      exact ⟨.triple (.ofByte b1) (.ofByte b2) (.ofByte b3), by
        simp [load_com_cell, ht, ScanCodeBehavior.deserialize_from,
          HidScanCodeType.get_len, TRIPLE_SERIAL_LENGTH]⟩
  | combinedKey =>
    have hr : 3 ≤ rest.length := by
      simpa [HidScanCodeType.get_len, COMBINED_KEY_SERIAL_LENGTH] using hrest
    match rest, hr with
    | b1 :: b2 :: b3 :: r1, _ =>
      exact ⟨.combinedKey b3 (.ofByte b1) (.ofByte b2), by
        simp [load_com_cell, ht, ScanCodeBehavior.deserialize_from,
          HidScanCodeType.get_len, COMBINED_KEY_SERIAL_LENGTH]⟩
  | changeConfig =>
    have hr : 1 ≤ rest.length := by
      simpa [HidScanCodeType.get_len, CHANGE_CONFIG_SERIAL_LENGTH] using hrest
    match rest, hr with
    | b1 :: r1, _ =>
      exact ⟨.changeConfig ⟨b1 % 256, Nat.mod_lt _ (by decide)⟩, by
        simp [load_com_cell, ht, ScanCodeBehavior.deserialize_from,
          HidScanCodeType.get_len, CHANGE_CONFIG_SERIAL_LENGTH]⟩

/-- C10 witness. -/
theorem deserialize_domain_witness :
    ScanCodeBehavior.deserialize_from [] = none ∧
    (ScanCodeBehavior.deserialize_from [7]).isSome ∧
    ∃ code, load_com_cell [0, 4, 9] = some (.ok (code, [9])) := by
  obtain ⟨h1, h2, h3⟩ := deserialize_domain
  exact ⟨h1, h2 7 [], h3 0 [4, 9] .single rfl (by decide)⟩

end Keyboards

namespace Keyboards

/-! ## Radio link (tychocs/src/radio/{packet,inner_radio,radio}.rs) -/

/-- `PacketType` from `radio/packet.rs` (discriminants Data=0, Ack=1,
Advertise=2, EstablishConnection=3). -/
inductive PacketType where
  | data
  | ack
  | advertise
  | establishConnection
deriving DecidableEq, Repr

/-- `Packet` from `radio/packet.rs`, at the level of its accessors: the
hardware address it matched (`addr`), the sequence-id byte (`id`), the type
byte and the payload view `buffer[META_SIZE..META_SIZE+len]`. -/
structure Packet where
  addr : Nat
  id : Nat
  ptype : PacketType
  payload : List Nat
deriving DecidableEq, Repr

/-- `Packet::default()`: the buffer is filled with `META_SIZE - 1 = 2`, so
the id byte reads 2, the type byte reads 2 (= Advertise) and `len()` is 0. -/
def Packet.default : Packet :=
  { addr := 0, id := 2, ptype := .advertise, payload := [] }

/-- `Radio::receive_with_conditions` from `radio/inner_radio.rs`: keep
receiving until a packet satisfies the condition or the timeout fires;
packets that fail the condition are consumed and skipped.  The timeout is
modelled as the end of the finite arrival list. -/
def receive_with_conditions (arrivals : List Packet) (f : Packet → Bool) :
    Option Packet :=
  arrivals.find? f

/-- `ConnectionState` from `radio/radio.rs`. -/
inductive ConnectionState where
  | advertisement
  | connectedReceive
  | connectedSend
deriving DecidableEq, Repr

/-- `CentralConnection` from `radio/radio.rs`. -/
structure CentralConnection where
  state : ConnectionState
  num_events : Nat
  num_miss_events : Nat
  addr : Nat
  rx_id : Nat
deriving DecidableEq, Repr

def MAX_CONNECTION_EVENTS : Nat := 500

/-- Result of one `ConnectedReceive` step: the updated connection, the Ack
packets transmitted, and the packets pushed to the application mailbox
(`RECV_CHANNEL`). -/
structure ReceiveStepResult where
  conn : CentralConnection
  acks : List Packet
  delivered : List Packet
deriving Repr

/-- The `ConnectionState::ConnectedReceive` arm of
`CentralConnection::handle_connection` (`radio/radio.rs` lines 73-104): wait
for a Data packet from this connection's address whose id differs from
`rx_id`; if one arrives, send an Ack echoing its id (payload = own addr),
record its id in `rx_id` and push it to the application mailbox; then bump
`num_events`, switching to `ConnectedSend` at `MAX_CONNECTION_EVENTS`. -/
def handle_connection_receive (c : CentralConnection) (arrivals : List Packet) :
    ReceiveStepResult :=
  let cond := fun (packet : Packet) =>
    packet.ptype = .data ∧ packet.addr = c.addr ∧ packet.id ≠ c.rx_id
  let (c1, acks, delivered) :=
    match receive_with_conditions arrivals (fun p => decide (cond p)) with
    | some packet =>
      let ack_packet : Packet :=
        { Packet.default with id := packet.id, ptype := .ack, payload := [c.addr] }
      ({ c with rx_id := packet.id }, [ack_packet], [packet])
    | none => (c, [], [])
  let c2 := { c1 with num_events := c1.num_events + 1 }
  if MAX_CONNECTION_EVENTS ≤ c2.num_events then
    { conn := { c2 with state := .connectedSend, num_events := 0 },
      acks := acks, delivered := delivered }
  else
    { conn := c2, acks := acks, delivered := delivered }

end Keyboards

namespace Keyboards

/-- C2 (counterexample): central at `rx_id = 0` receives a Data packet with
id 5 (ACKed and delivered), then the same packet again.  The receive
condition `packet.id() != self.rx_id` filters the retransmission out, so the
second step sends no Ack at all — contradicting the claim that an Ack is
sent both times. -/
theorem central_no_reack_for_duplicate :
    (handle_connection_receive
      { state := .connectedReceive, num_events := 0, num_miss_events := 0,
        addr := 1, rx_id := 0 }
      [{ addr := 1, id := 5, ptype := .data, payload := [7] }]).acks =
      [{ addr := 0, id := 5, ptype := .ack, payload := [1] }] ∧
    (handle_connection_receive
      { state := .connectedReceive, num_events := 0, num_miss_events := 0,
        addr := 1, rx_id := 0 }
      [{ addr := 1, id := 5, ptype := .data, payload := [7] }]).delivered =
      [{ addr := 1, id := 5, ptype := .data, payload := [7] }] ∧
    (handle_connection_receive
      { state := .connectedReceive, num_events := 1, num_miss_events := 0,
        addr := 1, rx_id := 5 }
      [{ addr := 1, id := 5, ptype := .data, payload := [7] }]).acks = [] ∧
    (handle_connection_receive
      { state := .connectedReceive, num_events := 1, num_miss_events := 0,
        addr := 1, rx_id := 5 }
      [{ addr := 1, id := 5, ptype := .data, payload := [7] }]).delivered = [] := by
  refine ⟨by decide, by decide, by decide, by decide⟩

/-- C2 (amended): in the central's connected-receive step, a Data packet
carrying the last delivered sequence id is filtered out by the receive
condition, so it is neither delivered to the application mailbox a second
time nor ACKed again (when only such duplicates arrive, the step sends no
Ack and delivers nothing); a Data packet passing the condition (new id,
matching address) is delivered exactly once and ACKed, and its id becomes
the new `rx_id`. -/
theorem central_receive_dedup (c : CentralConnection) (arrivals : List Packet) :
    ((∀ p ∈ arrivals, ¬(p.ptype = .data ∧ p.addr = c.addr ∧ p.id ≠ c.rx_id)) →
      (handle_connection_receive c arrivals).acks = [] ∧
      (handle_connection_receive c arrivals).delivered = [] ∧
      (handle_connection_receive c arrivals).conn.rx_id = c.rx_id) ∧
    (∀ p, receive_with_conditions arrivals
        (fun q => decide (q.ptype = .data ∧ q.addr = c.addr ∧ q.id ≠ c.rx_id)) =
          some p →
      (handle_connection_receive c arrivals).acks =
        [{ Packet.default with id := p.id, ptype := .ack, payload := [c.addr] }] ∧
      (handle_connection_receive c arrivals).delivered = [p] ∧
      (handle_connection_receive c arrivals).conn.rx_id = p.id) := by
  constructor
  · intro h
    have hnone : receive_with_conditions arrivals
        (fun q => decide (q.ptype = .data ∧ q.addr = c.addr ∧ q.id ≠ c.rx_id)) =
          none := by
      rw [receive_with_conditions, List.find?_eq_none]
      intro x hx
      simpa using h x hx
    rw [handle_connection_receive]
    simp only [hnone]
    split <;> exact ⟨rfl, rfl, rfl⟩
  · intro p hp
    rw [handle_connection_receive]
    simp only [hp]
    split <;> exact ⟨rfl, rfl, rfl⟩

/-- C2 witness. -/
theorem central_receive_dedup_witness :
    ((∀ p ∈ [{ addr := 1, id := 5, ptype := .data, payload := [7] }],
      ¬(Packet.ptype p = .data ∧ Packet.addr p = 1 ∧ Packet.id p ≠ 5)) →
      (handle_connection_receive
        { state := .connectedReceive, num_events := 1, num_miss_events := 0,
          addr := 1, rx_id := 5 }
        [{ addr := 1, id := 5, ptype := .data, payload := [7] }]).acks = [] ∧
      (handle_connection_receive
        { state := .connectedReceive, num_events := 1, num_miss_events := 0,
          addr := 1, rx_id := 5 }
        [{ addr := 1, id := 5, ptype := .data, payload := [7] }]).delivered = [] ∧
      (handle_connection_receive
        { state := .connectedReceive, num_events := 1, num_miss_events := 0,
          addr := 1, rx_id := 5 }
        [{ addr := 1, id := 5, ptype := .data, payload := [7] }]).conn.rx_id = 5) ∧
    ((∀ p ∈ [{ addr := 1, id := 5, ptype := .data, payload := [7] }],
        ¬(Packet.ptype p = .data ∧ Packet.addr p = 1 ∧ Packet.id p ≠ 5)) ∧
      (handle_connection_receive
        { state := .connectedReceive, num_events := 1, num_miss_events := 0,
          addr := 1, rx_id := 5 }
        [{ addr := 1, id := 5, ptype := .data, payload := [7] }]).acks = []) := by
  have h := central_receive_dedup
    { state := .connectedReceive, num_events := 1, num_miss_events := 0,
      addr := 1, rx_id := 5 }
    [{ addr := 1, id := 5, ptype := .data, payload := [7] }]
  refine ⟨h.1, by decide, (h.1 (by decide)).1⟩

end Keyboards

namespace Keyboards

/-! ## Keys / layer resolution engine (key_lib/src/keys.rs)

The engine is generic over the per-key state type `K: KeyState` and over the
storage backend.  The `KeyState` trait operations the engine uses
(`is_pressed`, `reset`) are bundled in `KeyStateI`; the flash KV store is a
function `storage : config -> layer -> Option table` (`get_item` on
`StorageKey::KeyScanCode`; `StorageItem` has the single variant `Key`, so
the source's invalid-item arm is unreachable and not modelled).  `NUM_KEYS`
and `NUM_LAYERS` are build-time constants, passed as parameters `n`, `nl`.
The `heapless::Vec<_, 64>` output set is modelled as a list (its capacity is
not modelled), and `Timer::after_millis(500)` as a returned delay in ms. -/

/-- `ReportCodes` variants, as consumed by the match in
`Report::generate_report` (`report.rs`); the enum itself lives in the
missing `scan_codes.rs`.  Key/button codes are `u8`, mouse deltas `i8`. -/
inductive ReportCodes where
  | modifier (code : Nat)
  | letter (code : Nat)
  | mouseButton (code : Nat)
  | mouseX (code : Int)
  | mouseY (code : Int)
  | mouseScroll (code : Int)
  | layerToggle (layer : Nat)
  | layer (layer : Nat)
  | sticky
deriving DecidableEq, Repr

/-- The `KeyState` trait operations used by `Keys` (`position.rs`). -/
structure KeyStateI (K : Type) where
  is_pressed : K → Bool
  reset : K → K

/-- `PressResult` from `keys.rs`. -/
inductive PressResult where
  | pressed
  | function
  | nothing
deriving DecidableEq, Repr

/-- The `Keys` struct (`keys.rs`); the optional `ConfigIndicator` only
drives an LED and is not modelled. -/
structure KeysS (K : Type) where
  codes : List (List ScanCodeBehavior)
  key_states : List K
  current_layer : List (Option Nat)
  config_num : Nat
deriving DecidableEq, Repr

/-- `Keys::default()`: all cells `Single(Undefined)`, default key states,
no held layers, config 0. -/
def KeysS.mkDefault (K : Type) (k0 : K) (n nl : Nat) : KeysS K :=
  { codes := List.replicate n (List.replicate nl ScanCodeBehavior.default)
    key_states := List.replicate n k0
    current_layer := List.replicate n none
    config_num := 0 }

/-- Layer-column update performed by one iteration of
`load_keys_from_storage`: `self.codes.iter_mut().zip(codes.iter())` writes
`key[layer] = code` pairwise (`zip` stops at the shorter side). -/
def applyLayer (codes : List (List ScanCodeBehavior)) (layer : Nat)
    (tbl : List ScanCodeBehavior) : List (List ScanCodeBehavior) :=
  List.zipWith (fun row c => row.set layer c) codes tbl ++ codes.drop tbl.length

/-- The layer loop of `Keys::load_keys_from_storage`: for each layer fetch
the stored table; on a miss (`None`) reset the whole struct to
`Keys::default()` and return an error (`false`).  `fuel` counts the layers
still to process (`nl - layer`). -/
def load_layers {K : Type} (k0 : K) (n nl : Nat)
    (storage : Nat → Nat → Option (List ScanCodeBehavior))
    (s : KeysS K) (config : Nat) (layer fuel : Nat) : KeysS K × Bool :=
  match fuel with
  | 0 => (s, true)
  | fuel + 1 =>
    match storage config layer with
    | some tbl =>
      load_layers k0 n nl storage { s with codes := applyLayer s.codes layer tbl }
        config (layer + 1) fuel
    | none => (KeysS.mkDefault K k0 n nl, false)

/-- `Keys::load_keys_from_storage`: set `config_num`, then load all
`NUM_LAYERS` layer tables. -/
def load_keys_from_storage {K : Type} (k0 : K) (n nl : Nat)
    (storage : Nat → Nat → Option (List ScanCodeBehavior))
    (s : KeysS K) (config : Nat) : KeysS K × Bool :=
  load_layers k0 n nl storage { s with config_num := config } config 0 nl

/-- `Keys::get_pressed_code` (`keys.rs`): resolve the behavior at
(`index`, `layer`), appending the emitted codes to `set`; `conv` is the
`KeyCodes -> ReportCodes` conversion (`code.into()`, from the missing
`scan_codes.rs`).  A pressed `ChangeConfig` runs `load_keys_from_storage`
and reports `Function`. -/
def get_pressed_code {K : Type} (imp : KeyStateI K) (k0 : K) (n nl : Nat)
    (storage : Nat → Nat → Option (List ScanCodeBehavior))
    (conv : KeyCodes → ReportCodes)
    (s : KeysS K) (index layer : Nat) (set : List ReportCodes) :
    KeysS K × List ReportCodes × PressResult :=
  let pressed := imp.is_pressed (s.key_states.getD index k0)
  match (s.codes.getD index []).getD layer ScanCodeBehavior.default with
  | .single code =>
    if pressed then (s, set ++ [conv code], .pressed) else (s, set, .nothing)
  | .double code0 code1 =>
    if pressed then (s, set ++ [conv code0, conv code1], .pressed)
    else (s, set, .nothing)
  | .triple code0 code1 code2 =>
    if pressed then (s, set ++ [conv code0, conv code1, conv code2], .pressed)
    else (s, set, .nothing)
  | .combinedKey other_index normal_code other_key_code =>
    if pressed then
      if imp.is_pressed (s.key_states.getD other_index k0) then
        (s, set ++ [.sticky, conv other_key_code], .pressed)
      else
        (s, set ++ [.sticky, conv normal_code], .pressed)
    else (s, set, .nothing)
  | .changeConfig config_num =>
    if pressed then
      ((load_keys_from_storage k0 n nl storage s config_num.1).1, set, .function)
    else (s, set, .nothing)

/-- The loop body of `Keys::get_keys`: iterate keys `i, i+1, ...` (with
`fuel` iterations left), resolving each key's effective layer
(`current_layer[i]` if held, else the base layer).  A `Function` result
clears the output set, resets every key state, clears all held layers and
breaks out after a 500 ms delay (returned as the third component). -/
def get_keys_go {K : Type} (imp : KeyStateI K) (k0 : K) (n nl : Nat)
    (storage : Nat → Nat → Option (List ScanCodeBehavior))
    (conv : KeyCodes → ReportCodes)
    (base : Nat) (s : KeysS K) (set : List ReportCodes) (i fuel : Nat) :
    KeysS K × List ReportCodes × Nat :=
  match fuel with
  | 0 => (s, set, 0)
  | fuel + 1 =>
    let layer := (s.current_layer.getD i none).getD base
    match get_pressed_code imp k0 n nl storage conv s i layer set with
    | (s', _, .function) =>
      ({ s' with
          key_states := s'.key_states.map imp.reset
          current_layer := List.replicate s'.current_layer.length none },
        [], 500)
    | (s', set', .pressed) =>
      get_keys_go imp k0 n nl storage conv base
        { s' with current_layer := s'.current_layer.set i (some layer) }
        set' (i + 1) fuel
    | (s', set', .nothing) =>
      get_keys_go imp k0 n nl storage conv base
        { s' with current_layer := s'.current_layer.set i none }
        set' (i + 1) fuel

/-- `Keys::get_keys`: run the loop over all `NUM_KEYS` keys with an empty
output set. -/
def get_keys {K : Type} (imp : KeyStateI K) (k0 : K) (n nl : Nat)
    (storage : Nat → Nat → Option (List ScanCodeBehavior))
    (conv : KeyCodes → ReportCodes)
    (s : KeysS K) (base : Nat) : KeysS K × List ReportCodes × Nat :=
  get_keys_go imp k0 n nl storage conv base s [] 0 n

/-- The effective layer key `i` resolves against. -/
def effLayer {K : Type} (s : KeysS K) (base i : Nat) : Nat :=
  (s.current_layer.getD i none).getD base

/-- The behavior cell key `i` resolves. -/
def cellAt {K : Type} (s : KeysS K) (base i : Nat) : ScanCodeBehavior :=
  (s.codes.getD i []).getD (effLayer s base i) ScanCodeBehavior.default

/-- Key `i`'s current press state. -/
def pressedAt {K : Type} (imp : KeyStateI K) (k0 : K) (s : KeysS K) (i : Nat) :
    Bool :=
  imp.is_pressed (s.key_states.getD i k0)

/-- Whether key `i` resolves to a pressed `ChangeConfig` (the `Function`
path). -/
def isFnPressed {K : Type} (imp : KeyStateI K) (k0 : K) (s : KeysS K)
    (base i : Nat) : Bool :=
  match cellAt s base i with
  | .changeConfig _ => pressedAt imp k0 s i
  | _ => false

/-- The codes key `i` contributes to the output set (derived specification
of one non-`Function` iteration, evaluated against the single state `s`). -/
def emitAt {K : Type} (imp : KeyStateI K) (k0 : K) (conv : KeyCodes → ReportCodes)
    (s : KeysS K) (base i : Nat) : List ReportCodes :=
  match cellAt s base i with
  | .single code => if pressedAt imp k0 s i then [conv code] else []
  | .double code0 code1 =>
    if pressedAt imp k0 s i then [conv code0, conv code1] else []
  | .triple code0 code1 code2 =>
    if pressedAt imp k0 s i then [conv code0, conv code1, conv code2] else []
  | .combinedKey other_index normal_code other_key_code =>
    if pressedAt imp k0 s i then
      [.sticky, conv (if pressedAt imp k0 s other_index then other_key_code
        else normal_code)]
    else []
  | .changeConfig _ => []

/-- The `current_layer` entry a non-`Function` iteration writes for key
`i`. -/
def newLayerAt {K : Type} (imp : KeyStateI K) (k0 : K) (s : KeysS K)
    (base i : Nat) : Option Nat :=
  match cellAt s base i with
  | .changeConfig _ => none
  | _ => if pressedAt imp k0 s i then some (effLayer s base i) else none

/-- `current_layer` after the loop has processed keys `i..i+k`. -/
def clSets {K : Type} (imp : KeyStateI K) (k0 : K) (s : KeysS K)
    (base i k : Nat) : List (Option Nat) :=
  (List.range' i k).foldl (fun cl j => cl.set j (newLayerAt imp k0 s base j))
    s.current_layer

/-- The config number a pressed `ChangeConfig` cell at key `i` switches
to. -/
def cfgAt {K : Type} (s : KeysS K) (base i : Nat) : Nat :=
  match cellAt s base i with
  | .changeConfig config_num => config_num.1
  | _ => 0

/-- The state transformation of the `Function` branch of `get_keys`: reset
every key state and clear every held layer. -/
def postFn {K : Type} (imp : KeyStateI K) (t : KeysS K) : KeysS K :=
  { t with
      key_states := t.key_states.map imp.reset
      current_layer := List.replicate t.current_layer.length none }

end Keyboards

namespace Keyboards

section KeysLemmas

variable {K : Type} (imp : KeyStateI K) (k0 : K) (n nl : Nat)
variable (storage : Nat → Nat → Option (List ScanCodeBehavior))
variable (conv : KeyCodes → ReportCodes)

theorem effLayer_set_cl (s : KeysS K) (base i j : Nat) (v : Option Nat)
    (h : i ≠ j) :
    effLayer { s with current_layer := s.current_layer.set i v } base j =
      effLayer s base j := by
  simp [effLayer, List.getD, List.getElem?_set_ne h]

theorem cellAt_set_cl (s : KeysS K) (base i j : Nat) (v : Option Nat)
    (h : i ≠ j) :
    cellAt { s with current_layer := s.current_layer.set i v } base j =
      cellAt s base j := by
  simp [cellAt, effLayer_set_cl s base i j v h]

theorem pressedAt_set_cl (s : KeysS K) (i j : Nat) (v : Option Nat) :
    pressedAt imp k0 { s with current_layer := s.current_layer.set i v } j =
      pressedAt imp k0 s j := rfl

theorem emitAt_set_cl (s : KeysS K) (base i j : Nat) (v : Option Nat)
    (h : i ≠ j) :
    emitAt imp k0 conv { s with current_layer := s.current_layer.set i v } base j =
      emitAt imp k0 conv s base j := by
  rw [emitAt, emitAt, cellAt_set_cl s base i j v h]
  rfl

theorem newLayerAt_set_cl (s : KeysS K) (base i j : Nat) (v : Option Nat)
    (h : i ≠ j) :
    newLayerAt imp k0 { s with current_layer := s.current_layer.set i v } base j =
      newLayerAt imp k0 s base j := by
  rw [newLayerAt, newLayerAt, cellAt_set_cl s base i j v h,
    effLayer_set_cl s base i j v h]
  rfl

theorem isFnPressed_set_cl (s : KeysS K) (base i j : Nat) (v : Option Nat)
    (h : i ≠ j) :
    isFnPressed imp k0 { s with current_layer := s.current_layer.set i v } base j =
      isFnPressed imp k0 s base j := by
  rw [isFnPressed, isFnPressed, cellAt_set_cl s base i j v h]
  rfl

theorem cfgAt_set_cl (s : KeysS K) (base i j : Nat) (v : Option Nat)
    (h : i ≠ j) :
    cfgAt { s with current_layer := s.current_layer.set i v } base j =
      cfgAt s base j := by
  rw [cfgAt, cfgAt, cellAt_set_cl s base i j v h]

theorem keys_foldl_congr {α β : Type} (l : List β) (f g : α → β → α) :
    ∀ (init : α), (∀ a : α, ∀ j ∈ l, f a j = g a j) →
      l.foldl f init = l.foldl g init := by
  induction l with
  | nil => intro init _; rfl
  | cons x xs ih =>
    intro init h
    simp only [List.foldl_cons]
    rw [h init x (by simp)]
    exact ih _ (fun a j hj => h a j (by simp [hj]))

theorem keys_flatMap_congr {α β : Type} (l : List α) (f g : α → List β)
    (h : ∀ j ∈ l, f j = g j) : l.flatMap f = l.flatMap g := by
  induction l with
  | nil => rfl
  | cons x xs ih =>
    simp only [List.flatMap_cons]
    rw [h x (by simp), ih (fun j hj => h j (by simp [hj]))]

/-- One non-`Function` iteration of the key loop, characterized by
`emitAt`/`pressedAt`. -/
theorem get_pressed_code_eq (s : KeysS K) (base i : Nat) (set : List ReportCodes)
    (h : isFnPressed imp k0 s base i = false) :
    get_pressed_code imp k0 n nl storage conv s i (effLayer s base i) set =
      (s, set ++ emitAt imp k0 conv s base i,
        if pressedAt imp k0 s i then .pressed else .nothing) := by
  have hcell : (s.codes.getD i []).getD (effLayer s base i) ScanCodeBehavior.default =
      cellAt s base i := rfl
  rw [get_pressed_code, hcell]
  rw [isFnPressed] at h
  rw [emitAt]
  cases hc : cellAt s base i <;> rw [hc] at h <;>
    cases hp : pressedAt imp k0 s i <;>
    simp_all [pressedAt] <;> split <;> simp

/-- The `Function` iteration: a pressed `ChangeConfig` cell reloads the
keymap from storage. -/
theorem get_pressed_code_fn (s : KeysS K) (base i : Nat) (set : List ReportCodes)
    (cfg : Fin 256)
    (hc : cellAt s base i = .changeConfig cfg)
    (hp : pressedAt imp k0 s i = true) :
    get_pressed_code imp k0 n nl storage conv s i (effLayer s base i) set =
      ((load_keys_from_storage k0 n nl storage s cfg.1).1, set, .function) := by
  have hcell : (s.codes.getD i []).getD (effLayer s base i) ScanCodeBehavior.default =
      cellAt s base i := rfl
  rw [get_pressed_code, hcell, hc]
  simp [pressedAt] at hp
  simp [hp]

end KeysLemmas

end Keyboards

namespace Keyboards

section KeysMaster

variable {K : Type} (imp : KeyStateI K) (k0 : K) (n nl : Nat)
variable (storage : Nat → Nat → Option (List ScanCodeBehavior))
variable (conv : KeyCodes → ReportCodes)

/-- Master lemma: when no pressed `ChangeConfig` occurs among the keys still
to process, the key loop leaves codes, key states and config untouched, sets
each `current_layer` entry from `newLayerAt`, emits `emitAt` per key — all
evaluated against the single pre-loop state — and requests no delay. -/
theorem get_keys_go_noFn (base : Nat) :
    ∀ (fuel i : Nat) (s : KeysS K) (set : List ReportCodes),
    (∀ j, i ≤ j → j < i + fuel → isFnPressed imp k0 s base j = false) →
    get_keys_go imp k0 n nl storage conv base s set i fuel =
      ({ s with current_layer := clSets imp k0 s base i fuel },
        set ++ (List.range' i fuel).flatMap (emitAt imp k0 conv s base), 0) := by
  intro fuel
  induction fuel with
  | zero =>
    intro i s set _
    simp [get_keys_go, clSets]
  | succ fuel ih =>
    intro i s set h
    have hi : isFnPressed imp k0 s base i = false := h i (Nat.le_refl i) (by omega)
    rw [get_keys_go]
    have hl : (s.current_layer.getD i none).getD base = effLayer s base i := rfl
    rw [hl, get_pressed_code_eq imp k0 n nl storage conv s base i set hi]
    have hnew : ∀ v : Option Nat,
        (if pressedAt imp k0 s i then some (effLayer s base i) else none) =
          newLayerAt imp k0 s base i → True := fun _ _ => trivial
    have hstep : ∀ v, v = newLayerAt imp k0 s base i →
        get_keys_go imp k0 n nl storage conv base
          { s with current_layer := s.current_layer.set i v }
          (set ++ emitAt imp k0 conv s base i) (i + 1) fuel =
        ({ s with current_layer := clSets imp k0 s base i (fuel + 1) },
          set ++ (List.range' i (fuel + 1)).flatMap (emitAt imp k0 conv s base),
          0) := by
      intro v hv
      subst hv
      set s1 : KeysS K :=
        { s with current_layer := s.current_layer.set i (newLayerAt imp k0 s base i) }
        with hs1
      have hih : ∀ j, i + 1 ≤ j → j < (i + 1) + fuel →
          isFnPressed imp k0 s1 base j = false := by
        intro j h1 h2
        rw [hs1, isFnPressed_set_cl imp k0 s base i j _ (by omega)]
        exact h j (by omega) (by omega)
      rw [ih (i + 1) s1 (set ++ emitAt imp k0 conv s base i) hih]
      have hemit : (List.range' (i + 1) fuel).flatMap (emitAt imp k0 conv s1 base) =
          (List.range' (i + 1) fuel).flatMap (emitAt imp k0 conv s base) := by
        refine keys_flatMap_congr _ _ _ (fun j hj => ?_)
        have : i + 1 ≤ j := (List.mem_range'_1.mp hj).1
        rw [hs1, emitAt_set_cl imp k0 conv s base i j _ (by omega)]
      have hcl : clSets imp k0 s1 base (i + 1) fuel =
          clSets imp k0 s base i (fuel + 1) := by
        rw [clSets, clSets, List.range'_succ, List.foldl_cons]
        have : List.foldl
            (fun cl j => cl.set j (newLayerAt imp k0 s1 base j))
            s1.current_layer (List.range' (i + 1) fuel) =
          List.foldl
            (fun cl j => cl.set j (newLayerAt imp k0 s base j))
            s1.current_layer (List.range' (i + 1) fuel) := by
          refine keys_foldl_congr _ _ _ _ (fun a j hj => ?_)
          have : i + 1 ≤ j := (List.mem_range'_1.mp hj).1
          rw [hs1, newLayerAt_set_cl imp k0 s base i j _ (by omega)]
        rw [this]
      rw [hemit, hcl]
      have hflat : (List.range' i (fuel + 1)).flatMap (emitAt imp k0 conv s base) =
          emitAt imp k0 conv s base i ++
            (List.range' (i + 1) fuel).flatMap (emitAt imp k0 conv s base) := by
        rw [List.range'_succ, List.flatMap_cons]
      rw [hflat, List.append_assoc]
    rcases hp : pressedAt imp k0 s i with _ | _
    · have hv : (none : Option Nat) = newLayerAt imp k0 s base i := by
        rw [newLayerAt]
        cases hc : cellAt s base i <;> simp [hp]
      exact hstep none hv
    · have hv : (some (effLayer s base i)) = newLayerAt imp k0 s base i := by
        rw [newLayerAt]
        rw [isFnPressed] at hi
        cases hc : cellAt s base i <;> rw [hc] at hi <;> simp [hp] <;>
          simp [hp] at hi
      exact hstep (some (effLayer s base i)) hv

end KeysMaster

end Keyboards

namespace Keyboards

section KeysMaster2

variable {K : Type} (imp : KeyStateI K) (k0 : K) (n nl : Nat)
variable (storage : Nat → Nat → Option (List ScanCodeBehavior))
variable (conv : KeyCodes → ReportCodes)

/-- Master lemma: when key `i0` is the first pressed `ChangeConfig` the loop
reaches, `get_keys` clears the output set, reloads the keymap from storage,
resets every key state, clears every held layer and requests the 500 ms
delay. -/
theorem get_keys_go_fn (base : Nat) :
    ∀ (fuel i : Nat) (s : KeysS K) (set : List ReportCodes) (i0 : Nat),
    i ≤ i0 → i0 < i + fuel →
    (∀ j, i ≤ j → j < i0 → isFnPressed imp k0 s base j = false) →
    isFnPressed imp k0 s base i0 = true →
    get_keys_go imp k0 n nl storage conv base s set i fuel =
      (postFn imp ((load_keys_from_storage k0 n nl storage
          { s with current_layer := clSets imp k0 s base i (i0 - i) }
          (cfgAt s base i0)).1), [], 500) := by
  intro fuel
  induction fuel with
  | zero => intro i s set i0 h1 h2 _ _; omega
  | succ fuel ih =>
    intro i s set i0 h1 h2 hbefore hfn
    rw [get_keys_go]
    have hl : (s.current_layer.getD i none).getD base = effLayer s base i := rfl
    rw [hl]
    rcases Nat.eq_or_lt_of_le h1 with heq | hlt
    · subst heq
      obtain ⟨cfg, hc⟩ : ∃ cfg, cellAt s base i = .changeConfig cfg := by
        rw [isFnPressed] at hfn
        cases hc : cellAt s base i <;> rw [hc] at hfn
        case changeConfig cfg => exact ⟨cfg, rfl⟩
        all_goals simp at hfn
      have hp : pressedAt imp k0 s i = true := by
        rw [isFnPressed, hc] at hfn
        exact hfn
      rw [get_pressed_code_fn imp k0 n nl storage conv s base i set cfg hc hp]
      have hcl0 : clSets imp k0 s base i (i - i) = s.current_layer := by
        simp [clSets]
      have hcfg : cfgAt s base i = cfg.1 := by rw [cfgAt, hc]
      rw [hcl0, hcfg]
      rfl
    · have hi : isFnPressed imp k0 s base i = false :=
        hbefore i (Nat.le_refl i) hlt
      rw [get_pressed_code_eq imp k0 n nl storage conv s base i set hi]
      have hstep : ∀ v, v = newLayerAt imp k0 s base i →
          get_keys_go imp k0 n nl storage conv base
            { s with current_layer := s.current_layer.set i v }
            (set ++ emitAt imp k0 conv s base i) (i + 1) fuel =
          (postFn imp ((load_keys_from_storage k0 n nl storage
              { s with current_layer := clSets imp k0 s base i (i0 - i) }
              (cfgAt s base i0)).1), [], 500) := by
        intro v hv
        subst hv
        set s1 : KeysS K :=
          { s with current_layer :=
              s.current_layer.set i (newLayerAt imp k0 s base i) } with hs1
        have hih := ih (i + 1) s1 (set ++ emitAt imp k0 conv s base i) i0
          (by omega) (by omega)
          (fun j hj1 hj2 => by
            rw [hs1, isFnPressed_set_cl imp k0 s base i j _ (by omega)]
            exact hbefore j (by omega) hj2)
          (by
            rw [hs1, isFnPressed_set_cl imp k0 s base i i0 _ (by omega)]
            exact hfn)
        rw [hih]
        have hcfg : cfgAt s1 base i0 = cfgAt s base i0 := by
          rw [hs1, cfgAt_set_cl s base i i0 _ (by omega)]
        have hcl : clSets imp k0 s1 base (i + 1) (i0 - (i + 1)) =
            clSets imp k0 s base i (i0 - i) := by
          rw [clSets, clSets]
          have hsplit : List.range' i (i0 - i) =
              i :: List.range' (i + 1) (i0 - (i + 1)) := by
            have : i0 - i = (i0 - (i + 1)) + 1 := by omega
            rw [this, List.range'_succ]
          rw [hsplit, List.foldl_cons]
          refine keys_foldl_congr _ _ _ _ (fun a j hj => ?_)
          have : i + 1 ≤ j := (List.mem_range'_1.mp hj).1
          rw [hs1, newLayerAt_set_cl imp k0 s base i j _ (by omega)]
        rw [hcfg, hcl]
      rcases hp : pressedAt imp k0 s i with _ | _
      · have hv : (none : Option Nat) = newLayerAt imp k0 s base i := by
          rw [newLayerAt]
          cases hc : cellAt s base i <;> simp [hp]
        exact hstep none hv
      · have hv : (some (effLayer s base i)) = newLayerAt imp k0 s base i := by
          rw [newLayerAt]
          rw [isFnPressed] at hi
          cases hc : cellAt s base i <;> rw [hc] at hi <;> simp [hp] <;>
            simp [hp] at hi
        exact hstep (some (effLayer s base i)) hv

/-- The codes table produced by a fully successful storage load
(derived specification of the layer loop of `load_keys_from_storage`). -/
def applyLayers (storage : Nat → Nat → Option (List ScanCodeBehavior))
    (config : Nat) (codes : List (List ScanCodeBehavior)) (layer fuel : Nat) :
    List (List ScanCodeBehavior) :=
  match fuel with
  | 0 => codes
  | fuel + 1 =>
    match storage config layer with
    | some tbl => applyLayers storage config (applyLayer codes layer tbl) (layer + 1) fuel
    | none => codes

/-- When every queried layer is present in storage, `load_layers` only
rewrites the codes table (per `applyLayers`) and reports success. -/
theorem load_layers_success (config : Nat) :
    ∀ (fuel layer : Nat) (s : KeysS K),
    (∀ l, layer ≤ l → l < layer + fuel → (storage config l).isSome) →
    load_layers k0 n nl storage s config layer fuel =
      ({ s with codes := applyLayers storage config s.codes layer fuel }, true) := by
  intro fuel
  induction fuel with
  | zero => intro layer s _; rfl
  | succ fuel ih =>
    intro layer s h
    have hsome : (storage config layer).isSome :=
      h layer (Nat.le_refl layer) (by omega)
    obtain ⟨tbl, htbl⟩ := Option.isSome_iff_exists.mp hsome
    simp only [load_layers, htbl]
    rw [ih (layer + 1) _ (fun l h1 h2 => h l (by omega) (by omega))]
    have happ : applyLayers storage config s.codes layer (fuel + 1) =
        applyLayers storage config (applyLayer s.codes layer tbl) (layer + 1) fuel := by
      simp only [applyLayers, htbl]
    rw [happ]

/-- `load_layers` leaves `key_states` and `current_layer` either untouched
(success path) or reset to the defaults (miss path). -/
theorem load_layers_shape (config : Nat) :
    ∀ (fuel layer : Nat) (s : KeysS K),
    ((load_layers k0 n nl storage s config layer fuel).1.key_states = s.key_states ∨
      (load_layers k0 n nl storage s config layer fuel).1.key_states =
        List.replicate n k0) ∧
    ((load_layers k0 n nl storage s config layer fuel).1.current_layer =
        s.current_layer ∨
      (load_layers k0 n nl storage s config layer fuel).1.current_layer =
        List.replicate n none) := by
  intro fuel
  induction fuel with
  | zero => intro layer s; exact ⟨Or.inl rfl, Or.inl rfl⟩
  | succ fuel ih =>
    intro layer s
    rw [load_layers]
    cases hst : storage config layer with
    | none => exact ⟨Or.inr rfl, Or.inr rfl⟩
    | some tbl => exact ih (layer + 1) _

/-- When some queried layer is missing in storage, `load_layers` resets the
whole struct to the default and reports failure. -/
theorem load_layers_miss (config : Nat) :
    ∀ (fuel layer : Nat) (s : KeysS K),
    (∃ l, layer ≤ l ∧ l < layer + fuel ∧ storage config l = none) →
    load_layers k0 n nl storage s config layer fuel =
      (KeysS.mkDefault K k0 n nl, false) := by
  intro fuel
  induction fuel with
  | zero => intro layer s ⟨l, h1, h2, _⟩; omega
  | succ fuel ih =>
    intro layer s ⟨l, h1, h2, h3⟩
    rw [load_layers]
    cases hst : storage config layer with
    | none => rfl
    | some tbl =>
      refine ih (layer + 1) _ ⟨l, ?_, by omega, h3⟩
      rcases Nat.eq_or_lt_of_le h1 with heq | hlt
      · subst heq; rw [h3] at hst; exact absurd hst (by simp)
      · omega

end KeysMaster2

end Keyboards

namespace Keyboards

section FoldSet

variable (f : Nat → Option Nat)

theorem foldlSet_length : ∀ (k start : Nat) (l : List (Option Nat)),
    ((List.range' start k).foldl (fun cl j => cl.set j (f j)) l).length =
      l.length := by
  intro k
  induction k with
  | zero => intro start l; rfl
  | succ k ih =>
    intro start l
    rw [List.range'_succ, List.foldl_cons, ih (start + 1)]
    exact List.length_set l start (f start)

theorem foldlSet_getD_lt : ∀ (k start : Nat) (l : List (Option Nat)) (j : Nat),
    j < start →
    ((List.range' start k).foldl (fun cl j' => cl.set j' (f j')) l).getD j none =
      l.getD j none := by
  intro k
  induction k with
  | zero => intro start l j _; rfl
  | succ k ih =>
    intro start l j hj
    rw [List.range'_succ, List.foldl_cons, ih (start + 1) _ j (by omega)]
    simp [List.getD, List.getElem?_set_ne (show start ≠ j by omega)]

theorem foldlSet_getD_in : ∀ (k start : Nat) (l : List (Option Nat)) (j : Nat),
    start ≤ j → j < start + k → j < l.length →
    ((List.range' start k).foldl (fun cl j' => cl.set j' (f j')) l).getD j none =
      f j := by
  intro k
  induction k with
  | zero => intro start l j h1 h2 _; omega
  | succ k ih =>
    intro start l j h1 h2 h3
    rw [List.range'_succ, List.foldl_cons]
    rcases Nat.eq_or_lt_of_le h1 with rfl | hlt
    · rw [foldlSet_getD_lt f k (start + 1) _ start (by omega)]
      simp [List.getD, List.getElem?_set_self, h3]
    · exact ih (start + 1) _ j (by omega) (by omega) (by simpa using h3)

end FoldSet

section ClaimKeys

variable {K : Type} (imp : KeyStateI K) (k0 : K) (n nl : Nat)
variable (storage : Nat → Nat → Option (List ScanCodeBehavior))
variable (conv : KeyCodes → ReportCodes)

theorem clSets_length (s : KeysS K) (base i k : Nat) :
    (clSets imp k0 s base i k).length = s.current_layer.length :=
  foldlSet_length _ k i s.current_layer

/-- C8: if `load_keys_from_storage` finds no stored record for some layer of
the requested profile, the whole `Keys` struct is reset to its all-default
state — every cell `Single(Undefined)`, default key states, no held layers,
config 0 — and the call returns an error; the outcome is this single
deterministic reset, with no retry inside the call. -/
theorem load_storage_miss (s : KeysS K) (config : Nat)
    (hmiss : ∃ l, l < nl ∧ storage config l = none) :
    load_keys_from_storage k0 n nl storage s config =
      (KeysS.mkDefault K k0 n nl, false) ∧
    (KeysS.mkDefault K k0 n nl).codes =
      List.replicate n (List.replicate nl (.single .undefined)) := by
  obtain ⟨l, h1, h2⟩ := hmiss
  refine ⟨?_, rfl⟩
  rw [load_keys_from_storage]
  exact load_layers_miss k0 n nl storage config nl 0 _ ⟨l, by omega, by omega, h2⟩

/-- C8 witness. -/
theorem load_storage_miss_witness :
    load_keys_from_storage false 2 2 (fun _ _ => none)
      { codes := [[.single ⟨7, by decide⟩, .single ⟨8, by decide⟩],
          [.single ⟨9, by decide⟩, .single ⟨3, by decide⟩]],
        key_states := [true, false], current_layer := [some 1, none],
        config_num := 1 } 1 =
      (KeysS.mkDefault Bool false 2 2, false) ∧
    (KeysS.mkDefault Bool false 2 2).codes =
      List.replicate 2 (List.replicate 2 (.single .undefined)) :=
  load_storage_miss false 2 2 (fun _ _ => none) _ 1 ⟨0, by decide, rfl⟩

end ClaimKeys

end Keyboards

namespace Keyboards

section ClaimC9

variable {K : Type} (imp : KeyStateI K) (k0 : K) (n nl : Nat)
variable (storage : Nat → Nat → Option (List ScanCodeBehavior))
variable (conv : KeyCodes → ReportCodes)

/-- C9: after a completed `get_keys` tick, `current_layer[i]` is `Some`
exactly when key `i`'s post-tick state is pressed (for a normal tick that is
the press state the tick resolved; a `ChangeConfig` tick resets every key
state, so no key is pressed); and on a profile switch (the tick that
requests the 500 ms delay) every `current_layer` entry is cleared. -/
theorem current_layer_invariant (s : KeysS K) (base : Nat)
    (hreset : ∀ k, imp.is_pressed (imp.reset k) = false)
    (hks : s.key_states.length = n) (hcl : s.current_layer.length = n) :
    (∀ i, i < n →
      ((get_keys imp k0 n nl storage conv s base).1.current_layer.getD i none).isSome =
        imp.is_pressed
          ((get_keys imp k0 n nl storage conv s base).1.key_states.getD i k0)) ∧
    ((get_keys imp k0 n nl storage conv s base).2.2 = 500 →
      (get_keys imp k0 n nl storage conv s base).1.current_layer =
        List.replicate n none) := by
  by_cases hfn : ∃ j, j < n ∧ isFnPressed imp k0 s base j = true
  · -- a pressed ChangeConfig is reached: the Function path fires
    have hex : ∃ j, isFnPressed imp k0 s base j = true := ⟨hfn.choose, hfn.choose_spec.2⟩
    classical
    set j0 := Nat.find hex with hj0
    have hj0fn : isFnPressed imp k0 s base j0 = true := Nat.find_spec hex
    have hj0lt : j0 < n := by
      have := Nat.find_min' hex hfn.choose_spec.2
      omega
    have hbefore : ∀ j, 0 ≤ j → j < j0 → isFnPressed imp k0 s base j = false := by
      intro j _ hj
      have := Nat.find_min hex (m := j) (by omega)
      simpa using this
    have hrun := get_keys_go_fn imp k0 n nl storage conv base n 0 s [] j0
      (Nat.zero_le _) (by omega) hbefore hj0fn
    rw [get_keys, hrun]
    set sMid : KeysS K :=
      { s with current_layer := clSets imp k0 s base 0 (j0 - 0) } with hsMid
    set t := (load_keys_from_storage k0 n nl storage sMid (cfgAt s base j0)).1 with ht
    have hshape := load_layers_shape k0 n nl storage (cfgAt s base j0) nl 0
      { sMid with config_num := cfgAt s base j0 }
    have htks : t.key_states.length = n := by
      rcases hshape.1 with h | h
      · rw [ht, load_keys_from_storage]
        rw [show ({ sMid with config_num := cfgAt s base j0 } : KeysS K).key_states =
          s.key_states from rfl] at h
        rw [h]
        exact hks
      · rw [ht, load_keys_from_storage, h]
        exact List.length_replicate n k0
    have htcl : t.current_layer.length = n := by
      rcases hshape.2 with h | h
      · rw [ht, load_keys_from_storage, h]
        rw [show ({ sMid with config_num := cfgAt s base j0 } : KeysS K).current_layer =
          clSets imp k0 s base 0 (j0 - 0) from rfl]
        rw [clSets_length]
        exact hcl
      · rw [ht, load_keys_from_storage, h]
        exact List.length_replicate n none
    constructor
    · intro i hi
      have hclpost : (postFn imp t).current_layer.getD i none = none := by
        rw [postFn]
        simp [List.getD, List.getElem?_replicate, htcl, hi]
      rw [hclpost]
      have hkspost : (postFn imp t).key_states.getD i k0 =
          imp.reset (t.key_states.getD i k0) := by
        rw [postFn]
        have hi' : i < t.key_states.length := by omega
        simp [List.getD, List.getElem?_map, (List.getElem?_eq_getElem hi')]
      rw [hkspost, hreset]
      rfl
    · intro _
      rw [postFn]
      rw [htcl]
  · -- no Function fires: the normal characterization applies
    push_neg at hfn
    have hnofn : ∀ j, 0 ≤ j → j < 0 + n → isFnPressed imp k0 s base j = false := by
      intro j _ hj
      have := hfn j (by omega)
      simpa using this
    have hrun := get_keys_go_noFn imp k0 n nl storage conv base n 0 s [] hnofn
    rw [get_keys, hrun]
    constructor
    · intro i hi
      have hget : (clSets imp k0 s base 0 n).getD i none =
          newLayerAt imp k0 s base i := by
        rw [clSets]
        exact foldlSet_getD_in _ n 0 s.current_layer i (Nat.zero_le i) (by omega)
          (by omega)
      rw [show ({ s with current_layer := clSets imp k0 s base 0 n } : KeysS K).current_layer =
        clSets imp k0 s base 0 n from rfl]
      rw [hget, newLayerAt]
      have hfni : isFnPressed imp k0 s base i = false := hnofn i (Nat.zero_le i) (by omega)
      rw [isFnPressed] at hfni
      cases hc : cellAt s base i <;> rw [hc] at hfni <;>
        cases hp : pressedAt imp k0 s i <;>
        simp_all [pressedAt]
    · intro h
      exact absurd h (by simp)

end ClaimC9

end Keyboards

namespace Keyboards

section ClaimC5

variable {K : Type} (imp : KeyStateI K) (k0 : K) (n nl : Nat)
variable (storage : Nat → Nat → Option (List ScanCodeBehavior))
variable (conv : KeyCodes → ReportCodes)

/-- C5: when `get_keys` resolves a pressed key whose behavior is
`ChangeConfig(cfg)` (and no earlier key triggered the Function path), the
output set is cleared, every key state is reset, every `current_layer` entry
is cleared, the keymap is reloaded from storage for profile `cfg` (which
also becomes the active config), and the caller is told to wait 500 ms. -/
theorem get_keys_changeConfig (s : KeysS K) (base i0 : Nat) (cfg : Fin 256)
    (hc : cellAt s base i0 = .changeConfig cfg)
    (hp : pressedAt imp k0 s i0 = true)
    (hbefore : ∀ j, j < i0 → isFnPressed imp k0 s base j = false)
    (hi0 : i0 < n)
    (hstore : ∀ l, l < nl → (storage cfg.1 l).isSome) :
    get_keys imp k0 n nl storage conv s base =
      ({ codes := applyLayers storage cfg.1 s.codes 0 nl,
         key_states := s.key_states.map imp.reset,
         current_layer := List.replicate s.current_layer.length none,
         config_num := cfg.1 }, [], 500) := by
  have hfn : isFnPressed imp k0 s base i0 = true := by
    rw [isFnPressed, hc]; exact hp
  have hrun := get_keys_go_fn imp k0 n nl storage conv base n 0 s [] i0
    (Nat.zero_le _) (by omega) (fun j _ hj => hbefore j hj) hfn
  rw [get_keys, hrun]
  have hcfg : cfgAt s base i0 = cfg.1 := by rw [cfgAt, hc]
  rw [hcfg]
  have hload : load_keys_from_storage k0 n nl storage
      { s with current_layer := clSets imp k0 s base 0 (i0 - 0) } cfg.1 =
      ({ codes := applyLayers storage cfg.1 s.codes 0 nl,
         key_states := s.key_states,
         current_layer := clSets imp k0 s base 0 (i0 - 0),
         config_num := cfg.1 }, true) := by
    rw [load_keys_from_storage]
    rw [load_layers_success k0 n nl storage cfg.1 nl 0 _
      (fun l _ hl => hstore l (by omega))]
  rw [hload]
  show (postFn imp { codes := applyLayers storage cfg.1 s.codes 0 nl,
                     key_states := s.key_states,
                     current_layer := clSets imp k0 s base 0 (i0 - 0),
                     config_num := cfg.1 }, [], 500) = _
  simp [postFn, clSets_length]

end ClaimC5

/-- The `KeyState` trait instantiated at `DefaultSwitch` (`position.rs`):
`is_pressed` returns the stored boolean, `reset` clears it. -/
def defaultSwitch : KeyStateI Bool :=
  { is_pressed := fun b => b, reset := fun _ => false }

/-- Modelled from the spec: a representative `KeyCodes -> ReportCodes`
conversion (the real one lives in the missing `scan_codes.rs`), mapping a
usage code to a `Letter` report code. -/
def letterConv (c : KeyCodes) : ReportCodes := .letter c.1

/-- One scan tick of a 2-key keyboard with `DefaultSwitch` states:
`update_positions` overwrites every key state with its raw sample
(`DefaultSwitch::update_buf`), then `get_keys` resolves the tick (as in
`Report::generate_report`). -/
def tickBool (storage : Nat → Nat → Option (List ScanCodeBehavior))
    (s : KeysS Bool) (samples : List Bool) (base : Nat) :
    KeysS Bool × List ReportCodes × Nat :=
  get_keys defaultSwitch false 2 1 storage letterConv
    { s with key_states := samples } base

/-- C4 (counterexample): a `CombinedKey` at index 0 with `other_index = 1 > 0`
observes key 1's *current*-tick state, not its previous-tick state.  Tick 1
has both keys released; on tick 2 both keys are pressed, and the CombinedKey
emits the combined code (letter 5) — the claim predicts the normal code
(letter 4), which is absent. -/
theorem combinedKey_not_prev_tick :
    (tickBool (fun _ _ => none)
      ((tickBool (fun _ _ => none)
        { codes := [[.combinedKey 1 ⟨4, by decide⟩ ⟨5, by decide⟩],
            [.single ⟨9, by decide⟩]],
          key_states := [false, false], current_layer := [none, none],
          config_num := 0 }
        [false, false] 0).1)
      [true, true] 0).2.1 = [.sticky, .letter 5, .letter 9] ∧
    ReportCodes.letter 4 ∉
      (tickBool (fun _ _ => none)
        ((tickBool (fun _ _ => none)
          { codes := [[.combinedKey 1 ⟨4, by decide⟩ ⟨5, by decide⟩],
              [.single ⟨9, by decide⟩]],
            key_states := [false, false], current_layer := [none, none],
            config_num := 0 }
          [false, false] 0).1)
        [true, true] 0).2.1 := by
  refine ⟨by decide, by decide⟩

section ClaimC4

variable {K : Type} (imp : KeyStateI K) (k0 : K) (n nl : Nat)
variable (storage : Nat → Nat → Option (List ScanCodeBehavior))
variable (conv : KeyCodes → ReportCodes)

/-- C4 (amended): during one `get_keys` tick (with no pressed `ChangeConfig`),
every key's emission is computed from the single pre-loop state — in
particular a `CombinedKey` at index `i` observes key `other_index`'s
current-tick press state whether `other_index` is smaller or larger than
`i`, choosing `combined_code` exactly when that key is currently pressed. -/
theorem combined_key_reads_current (s : KeysS K) (base : Nat)
    (hnofn : ∀ j, j < n → isFnPressed imp k0 s base j = false) :
    get_keys imp k0 n nl storage conv s base =
      ({ s with current_layer := clSets imp k0 s base 0 n },
        (List.range' 0 n).flatMap (emitAt imp k0 conv s base), 0) ∧
    (∀ i oi nc cc, cellAt s base i = .combinedKey oi nc cc →
      pressedAt imp k0 s i = true →
      emitAt imp k0 conv s base i =
        [.sticky, conv (if pressedAt imp k0 s oi then cc else nc)]) := by
  constructor
  · have hrun := get_keys_go_noFn imp k0 n nl storage conv base n 0 s []
      (fun j _ hj => hnofn j (by omega))
    rw [get_keys, hrun, List.nil_append]
  · intro i oi nc cc hc hp
    rw [emitAt, hc, hp]
    simp

end ClaimC4

/-- C4 witness. -/
theorem combined_key_reads_current_witness :
    (get_keys defaultSwitch false 2 1 (fun _ _ => none) letterConv
      { codes := [[.combinedKey 1 ⟨4, by decide⟩ ⟨5, by decide⟩],
          [.single ⟨9, by decide⟩]],
        key_states := [true, true], current_layer := [none, none],
        config_num := 0 } 0 =
      ({ codes := [[.combinedKey 1 ⟨4, by decide⟩ ⟨5, by decide⟩],
           [.single ⟨9, by decide⟩]],
         key_states := [true, true],
         current_layer := clSets defaultSwitch false
           { codes := [[.combinedKey 1 ⟨4, by decide⟩ ⟨5, by decide⟩],
               [.single ⟨9, by decide⟩]],
             key_states := [true, true], current_layer := [none, none],
             config_num := 0 } 0 0 2,
         config_num := 0 },
        (List.range' 0 2).flatMap (emitAt defaultSwitch false letterConv
          { codes := [[.combinedKey 1 ⟨4, by decide⟩ ⟨5, by decide⟩],
              [.single ⟨9, by decide⟩]],
            key_states := [true, true], current_layer := [none, none],
            config_num := 0 } 0), 0)) ∧
    (∀ i oi nc cc,
      cellAt (K := Bool)
          { codes := [[.combinedKey 1 ⟨4, by decide⟩ ⟨5, by decide⟩],
              [.single ⟨9, by decide⟩]],
            key_states := [true, true], current_layer := [none, none],
            config_num := 0 } 0 i = .combinedKey oi nc cc →
      pressedAt defaultSwitch false
          { codes := [[.combinedKey 1 ⟨4, by decide⟩ ⟨5, by decide⟩],
              [.single ⟨9, by decide⟩]],
            key_states := [true, true], current_layer := [none, none],
            config_num := 0 } i = true →
      emitAt defaultSwitch false letterConv
          { codes := [[.combinedKey 1 ⟨4, by decide⟩ ⟨5, by decide⟩],
              [.single ⟨9, by decide⟩]],
            key_states := [true, true], current_layer := [none, none],
            config_num := 0 } 0 i =
        [.sticky, letterConv (if pressedAt defaultSwitch false
            { codes := [[.combinedKey 1 ⟨4, by decide⟩ ⟨5, by decide⟩],
                [.single ⟨9, by decide⟩]],
              key_states := [true, true], current_layer := [none, none],
              config_num := 0 } oi then cc else nc)]) :=
  combined_key_reads_current defaultSwitch false 2 1 (fun _ _ => none) letterConv
    _ 0 (by decide)

end Keyboards

namespace Keyboards

/-- Concrete 1-key keyboard whose only cell is `ChangeConfig(1)`, with the
key pressed. -/
def c5Keys : KeysS Bool :=
  { codes := [[.changeConfig ⟨1, by decide⟩]], key_states := [true],
    current_layer := [none], config_num := 0 }

/-- Concrete storage holding `Single(8)` for every profile/layer. -/
def c5Storage : Nat → Nat → Option (List ScanCodeBehavior) :=
  fun _ _ => some [.single ⟨8, by decide⟩]

/-- C5 witness. -/
theorem get_keys_changeConfig_witness :
    get_keys defaultSwitch false 1 1 c5Storage letterConv c5Keys 0 =
      ({ codes := applyLayers c5Storage 1 c5Keys.codes 0 1,
         key_states := c5Keys.key_states.map defaultSwitch.reset,
         current_layer := List.replicate 1 none,
         config_num := 1 }, [], 500) :=
  get_keys_changeConfig defaultSwitch false 1 1 c5Storage letterConv c5Keys
    0 0 ⟨1, by decide⟩ rfl rfl (fun j hj => absurd hj (by omega)) (by decide)
    (fun l _ => rfl)

/-- Concrete 1-key keyboard with a pressed `Single(4)` key. -/
def c9Keys : KeysS Bool :=
  { codes := [[.single ⟨4, by decide⟩]], key_states := [true],
    current_layer := [none], config_num := 0 }

/-- C9 witness. -/
theorem current_layer_invariant_witness :
    (∀ i, i < 1 →
      (((get_keys defaultSwitch false 1 1 (fun _ _ => none) letterConv c9Keys
          0).1.current_layer.getD i none).isSome =
        defaultSwitch.is_pressed
          ((get_keys defaultSwitch false 1 1 (fun _ _ => none) letterConv c9Keys
            0).1.key_states.getD i false))) ∧
    ((get_keys defaultSwitch false 1 1 (fun _ _ => none) letterConv c9Keys
        0).2.2 = 500 →
      (get_keys defaultSwitch false 1 1 (fun _ _ => none) letterConv c9Keys
        0).1.current_layer = List.replicate 1 none) :=
  current_layer_invariant defaultSwitch false 1 1 (fun _ _ => none) letterConv
    c9Keys 0 (fun _ => rfl) rfl rfl

end Keyboards

namespace Keyboards

/-! ## Report generator (key_lib/src/report.rs)

`generate_report` is embedded as a pure per-tick function over the report
state.  The tick's input is the list of `ReportCodes` that
`Keys::get_keys` produced (the `pressed_keys` vec), plus the two booleans
`mouseOk`/`scrollOk` standing for the values of `mouse_delta.check()` /
`scroll_delta.check()` during the tick — faithful because `MouseDelta.check`
caches its result (`check_state`/`res`) so every call within one tick
returns the same boolean; the timer arithmetic inside `MouseDelta` is real
time and is not modelled.  `KeyboardReportNKRO`/`MouseReport` live in the
missing `descriptor.rs`: modelled from the spec as a modifier byte plus an
NKRO bitmap (one bit per usage code, bit `code % 8` of byte `code / 8`; 32
byte-cells so every u8 code is in range) and a buttons/x/y/wheel record. -/

/-- Modelled from the spec: the NKRO keyboard HID report (`descriptor.rs` is
not under `src/`): modifier byte plus the NKRO bitmap bytes. -/
structure KeyboardReportNKRO where
  modifier : Nat
  nkro_keycodes : List Nat
deriving DecidableEq, Repr

def KeyboardReportNKRO.default : KeyboardReportNKRO :=
  { modifier := 0, nkro_keycodes := List.replicate 32 0 }

/-- Modelled from the spec: the mouse HID report (`descriptor.rs` is not
under `src/`). -/
structure MouseReport where
  buttons : Nat
  x : Int
  y : Int
  wheel : Int
deriving DecidableEq, Repr

def MouseReport.default : MouseReport :=
  { buttons := 0, x := 0, y := 0, wheel := 0 }

/-- `set_bit` from `report.rs`: set or clear bit `pos` of a `u8`. -/
def set_bit (num : Nat) (bit : Nat) (pos : Nat) : Nat :=
  let mask := (1 <<< pos) % 256
  if bit = 1 then num ||| mask else num &&& (255 ^^^ mask)

/-- The sticky-modifier latch (`State` in `report.rs`). -/
inductive StickState where
  | stick (val : Nat)
  | pressed
  | none
deriving DecidableEq, Repr

/-- The state of `Report` that `generate_report` reads and writes (the
`MouseDelta` timers are kept outside the model, see above). -/
structure ReportState where
  key_report : KeyboardReportNKRO
  mouse_report : MouseReport
  current_layer : Nat
  reset_layer : Nat
  stick : StickState
deriving DecidableEq, Repr

/-- `Report::new(..)`'s state. -/
def reportInit : ReportState :=
  { key_report := KeyboardReportNKRO.default
    mouse_report := MouseReport.default
    current_layer := 0
    reset_layer := 0
    stick := .none }

/-- The accumulator of the `for key in &pressed_keys` loop of
`generate_report`. -/
structure TickAcc where
  kr : KeyboardReportNKRO
  mr : MouseReport
  pressed : Bool
  stick : Bool
  toggle : Bool
  new_layer : Option Nat
deriving Repr

def TickAcc.init : TickAcc :=
  { kr := KeyboardReportNKRO.default, mr := MouseReport.default,
    pressed := false, stick := false, toggle := false, new_layer := none }

/-- One iteration of the `pressed_keys` loop of `generate_report`. -/
def process_code (mouseOk scrollOk : Bool) (acc : TickAcc) (key : ReportCodes) :
    TickAcc :=
  match key with
  | .modifier code =>
    { acc with kr := { acc.kr with
        modifier := set_bit acc.kr.modifier 1 (code % 8) } }
  | .letter code =>
    let n_idx := code / 8
    let b_idx := code % 8
    { acc with
        kr := { acc.kr with
          nkro_keycodes := acc.kr.nkro_keycodes.set n_idx
            (set_bit (acc.kr.nkro_keycodes.getD n_idx 0) 1 b_idx) }
        pressed := true }
  | .mouseButton code =>
    { acc with mr := { acc.mr with
        buttons := set_bit acc.mr.buttons 1 (code % 8) } }
  | .mouseX code =>
    if mouseOk then { acc with mr := { acc.mr with x := acc.mr.x + code } }
    else acc
  | .mouseY code =>
    if mouseOk then { acc with mr := { acc.mr with y := acc.mr.y + code } }
    else acc
  | .mouseScroll code =>
    if scrollOk then { acc with mr := { acc.mr with wheel := acc.mr.wheel + code } }
    else acc
  | .layerToggle layer =>
    { acc with new_layer := some layer, toggle := true }
  | .layer layer =>
    match acc.new_layer with
    | some _ => acc
    | .none => { acc with new_layer := some layer }
  | .sticky => { acc with stick := true }

/-- `Report::generate_report`, with the tick's resolved codes passed in (the
vec filled by `keys.get_keys(self.current_layer, ..)`): accumulate the
bitfields, run the sticky-modifier latch, resolve the layer precedence, then
emit each report only when it differs from the previous one. -/
def generate_report (st : ReportState) (mouseOk scrollOk : Bool)
    (pressed_keys : List ReportCodes) :
    ReportState × Option KeyboardReportNKRO × Option MouseReport :=
  let acc := pressed_keys.foldl (process_code mouseOk scrollOk) TickAcc.init
  let stickKr : StickState × KeyboardReportNKRO :=
    if acc.stick then
      if acc.pressed then
        match st.stick with
        | .stick _ => (.pressed, acc.kr)
        | .pressed => (.pressed, acc.kr)
        | .none => (.pressed, acc.kr)
      else
        match st.stick with
        | .stick _ =>
          if acc.kr.modifier ≠ 0 then (.stick acc.kr.modifier, acc.kr)
          else (st.stick, acc.kr)
        | .pressed => (.pressed, acc.kr)
        | .none =>
          if acc.kr.modifier ≠ 0 then (.stick acc.kr.modifier, acc.kr)
          else (.none, acc.kr)
    else
      match st.stick with
      | .stick val =>
        if acc.pressed then (.none, { acc.kr with modifier := val })
        else (st.stick, acc.kr)
      | .pressed => (.none, acc.kr)
      | .none => (.none, acc.kr)
  let newKr := stickKr.2
  let layers : Nat × Nat :=
    match acc.new_layer with
    | some layer => (layer, if acc.toggle then layer else st.reset_layer)
    | .none => (st.reset_layer, st.reset_layer)
  let emitK : Option KeyboardReportNKRO :=
    if st.key_report ≠ newKr then some newKr else none
  let krFinal := if st.key_report ≠ newKr then newKr else st.key_report
  let emitM : Option MouseReport :=
    if st.mouse_report.buttons ≠ acc.mr.buttons ∨ acc.mr.x ≠ 0 ∨
        acc.mr.y ≠ 0 ∨ acc.mr.wheel ≠ 0 then
      some acc.mr
    else none
  let mrFinal := if st.mouse_report.buttons ≠ acc.mr.buttons ∨ acc.mr.x ≠ 0 ∨
      acc.mr.y ≠ 0 ∨ acc.mr.wheel ≠ 0 then acc.mr else st.mouse_report
  ({ key_report := krFinal, mouse_report := mrFinal,
     current_layer := layers.1, reset_layer := layers.2,
     stick := stickKr.1 }, emitK, emitM)

end Keyboards

namespace Keyboards

/-- The code loop sets the `stick` flag exactly when a `Sticky` signal is in
the tick's codes (or the flag was already set). -/
theorem fold_stick (mo so : Bool) : ∀ (L : List ReportCodes) (a : TickAcc),
    ((L.foldl (process_code mo so) a).stick = true) ↔
      (a.stick = true ∨ ReportCodes.sticky ∈ L) := by
  intro L
  induction L with
  | nil => intro a; simp
  | cons k ks ih =>
    intro a
    rw [List.foldl_cons, ih]
    cases k <;>
      simp only [process_code, List.mem_cons, reduceCtorEq, false_or] <;>
      first
        | tauto
        | (split <;> tauto)

/-- The code loop sets the `pressed` flag exactly when a real (`Letter`) key
is in the tick's codes (or the flag was already set). -/
theorem fold_pressed (mo so : Bool) : ∀ (L : List ReportCodes) (a : TickAcc),
    ((L.foldl (process_code mo so) a).pressed = true) ↔
      (a.pressed = true ∨ ∃ c, ReportCodes.letter c ∈ L) := by
  intro L
  induction L with
  | nil => intro a; simp
  | cons k ks ih =>
    intro a
    rw [List.foldl_cons, ih]
    cases k with
    | letter code =>
      simp only [process_code, List.mem_cons, ReportCodes.letter.injEq]
      refine iff_of_true (by simp) (Or.inr ⟨code, Or.inl rfl⟩)
    | modifier code =>
      simp only [process_code, List.mem_cons, reduceCtorEq, false_or]
    | mouseButton code =>
      simp only [process_code, List.mem_cons, reduceCtorEq, false_or]
    | mouseX code =>
      simp only [process_code, List.mem_cons, reduceCtorEq, false_or]
      split <;> rfl
    | mouseY code =>
      simp only [process_code, List.mem_cons, reduceCtorEq, false_or]
      split <;> rfl
    | mouseScroll code =>
      simp only [process_code, List.mem_cons, reduceCtorEq, false_or]
      split <;> rfl
    | layerToggle layer =>
      simp only [process_code, List.mem_cons, reduceCtorEq, false_or]
    | layer layer =>
      simp only [process_code, List.mem_cons, reduceCtorEq, false_or]
      split <;> rfl
    | sticky =>
      simp only [process_code, List.mem_cons, reduceCtorEq, false_or]

end Keyboards

namespace Keyboards

/-- Latch step: a tick with a Sticky signal, no real press and a nonzero
modifier byte moves the latch (from `None` or an earlier `Stick`) to
`Stick(modifier)`. -/
theorem generate_report_latches (st : ReportState) (mo so : Bool)
    (L : List ReportCodes)
    (h0 : st.stick ≠ StickState.pressed)
    (hstick : (L.foldl (process_code mo so) TickAcc.init).stick = true)
    (hpressed : (L.foldl (process_code mo so) TickAcc.init).pressed = false)
    (hm : (L.foldl (process_code mo so) TickAcc.init).kr.modifier ≠ 0) :
    (generate_report st mo so L).1.stick =
      .stick ((L.foldl (process_code mo so) TickAcc.init).kr.modifier) := by
  rcases hss : st.stick with v | _ | _
  · simp [generate_report, hstick, hpressed, hss, hm]
  · exact absurd hss h0
  · simp [generate_report, hstick, hpressed, hss, hm]

/-- Consume step: a tick with a real press and no Sticky signal, starting
from `Stick(val)`, writes `val` into the report's modifier byte (replacing
the tick's own accumulated modifier) and clears the latch. -/
theorem generate_report_consumes (st : ReportState) (mo so : Bool)
    (L : List ReportCodes) (v : Nat)
    (hss : st.stick = StickState.stick v)
    (hstick : (L.foldl (process_code mo so) TickAcc.init).stick = false)
    (hpressed : (L.foldl (process_code mo so) TickAcc.init).pressed = true) :
    (generate_report st mo so L).1.key_report.modifier = v ∧
    (generate_report st mo so L).1.stick = .none := by
  constructor
  · simp only [generate_report, hstick, hpressed, hss]
    simp only [Bool.false_eq_true, if_false, if_true]
    split_ifs with h
    · rfl
    · rw [not_not] at h
      rw [h]
  · simp [generate_report, hstick, hpressed, hss]

/-- Plain step: with the latch at `None` and no Sticky signal, the report's
modifier byte is exactly the tick's own accumulated modifier and the latch
stays `None`. -/
theorem generate_report_plain (st : ReportState) (mo so : Bool)
    (L : List ReportCodes)
    (hss : st.stick = StickState.none)
    (hstick : (L.foldl (process_code mo so) TickAcc.init).stick = false) :
    (generate_report st mo so L).1.key_report.modifier =
      (L.foldl (process_code mo so) TickAcc.init).kr.modifier ∧
    (generate_report st mo so L).1.stick = .none := by
  constructor
  · simp only [generate_report, hstick, hss]
    simp only [Bool.false_eq_true, if_false]
    split_ifs with h
    · rfl
    · rw [not_not] at h
      rw [h]
  · simp [generate_report, hstick, hss]

end Keyboards

namespace Keyboards

/-- C3 (counterexample): tick 1 latches modifier byte 1 (Sticky + Modifier
bit 0, no real press); tick 2 presses a real key while also holding its own
modifier bit 1 (byte 2).  The code *assigns* the latched byte, producing
modifier 1 — not the OR `1 ||| 2 = 3` the claim requires. -/
theorem sticky_modifier_not_ORed :
    (generate_report (generate_report reportInit true true
        [.sticky, .modifier 0]).1 true true
      [.letter 4, .modifier 1]).1.key_report.modifier = 1 ∧
    (1 : Nat) ≠ 1 ||| 2 :=
  ⟨by decide, by decide⟩

/-- C3 (amended): if a tick observes a Sticky signal with no real (Letter)
press and a nonzero accumulated modifier byte `m` (the latch not being in
its `Pressed` state), the latch becomes `Stick(m)`; the next tick with a
real press and no Sticky signal gets `m` *written into* (replacing, not
OR'd into) its modifier field and clears the latch; this happens exactly
once — a following tick without a Sticky signal reports only its own
accumulated modifier. -/
theorem sticky_latch_assign (st : ReportState) (mo so mo2 so2 mo3 so3 : Bool)
    (L1 L2 L3 : List ReportCodes)
    (h0 : st.stick ≠ StickState.pressed)
    (h1s : ReportCodes.sticky ∈ L1)
    (h1np : ∀ c, ReportCodes.letter c ∉ L1)
    (hm : (L1.foldl (process_code mo so) TickAcc.init).kr.modifier ≠ 0)
    (h2s : ReportCodes.sticky ∉ L2)
    (h2p : ∃ c, ReportCodes.letter c ∈ L2)
    (h3s : ReportCodes.sticky ∉ L3) :
    (generate_report st mo so L1).1.stick =
      .stick ((L1.foldl (process_code mo so) TickAcc.init).kr.modifier) ∧
    (generate_report (generate_report st mo so L1).1 mo2 so2
        L2).1.key_report.modifier =
      (L1.foldl (process_code mo so) TickAcc.init).kr.modifier ∧
    (generate_report (generate_report st mo so L1).1 mo2 so2 L2).1.stick =
      .none ∧
    (generate_report (generate_report (generate_report st mo so L1).1 mo2 so2
        L2).1 mo3 so3 L3).1.key_report.modifier =
      (L3.foldl (process_code mo3 so3) TickAcc.init).kr.modifier := by
  have hstick1 : (L1.foldl (process_code mo so) TickAcc.init).stick = true :=
    (fold_stick mo so L1 TickAcc.init).mpr (Or.inr h1s)
  have hpressed1 : (L1.foldl (process_code mo so) TickAcc.init).pressed = false := by
    cases h : (L1.foldl (process_code mo so) TickAcc.init).pressed
    · rfl
    · rcases (fold_pressed mo so L1 TickAcc.init).mp h with h' | ⟨c, hc⟩
      · simp [TickAcc.init] at h'
      · exact absurd hc (h1np c)
  have h1 := generate_report_latches st mo so L1 h0 hstick1 hpressed1 hm
  have hstick2 : (L2.foldl (process_code mo2 so2) TickAcc.init).stick = false := by
    cases h : (L2.foldl (process_code mo2 so2) TickAcc.init).stick
    · rfl
    · rcases (fold_stick mo2 so2 L2 TickAcc.init).mp h with h' | hmem
      · simp [TickAcc.init] at h'
      · exact absurd hmem h2s
  have hpressed2 : (L2.foldl (process_code mo2 so2) TickAcc.init).pressed = true :=
    (fold_pressed mo2 so2 L2 TickAcc.init).mpr (Or.inr h2p)
  have h2 := generate_report_consumes (generate_report st mo so L1).1 mo2 so2 L2
    ((L1.foldl (process_code mo so) TickAcc.init).kr.modifier) h1 hstick2 hpressed2
  have hstick3 : (L3.foldl (process_code mo3 so3) TickAcc.init).stick = false := by
    cases h : (L3.foldl (process_code mo3 so3) TickAcc.init).stick
    · rfl
    · rcases (fold_stick mo3 so3 L3 TickAcc.init).mp h with h' | hmem
      · simp [TickAcc.init] at h'
      · exact absurd hmem h3s
  have h3 := generate_report_plain
    (generate_report (generate_report st mo so L1).1 mo2 so2 L2).1 mo3 so3 L3
    h2.2 hstick3
  exact ⟨h1, h2.1, h2.2, h3.1⟩

/-- C3 witness. -/
theorem sticky_latch_assign_witness :
    (generate_report reportInit true true [.sticky, .modifier 0]).1.stick =
      .stick (([ReportCodes.sticky, .modifier 0].foldl (process_code true true)
        TickAcc.init).kr.modifier) ∧
    (generate_report (generate_report reportInit true true
        [.sticky, .modifier 0]).1 true true
        [.letter 4]).1.key_report.modifier =
      ([ReportCodes.sticky, .modifier 0].foldl (process_code true true)
        TickAcc.init).kr.modifier ∧
    (generate_report (generate_report reportInit true true
        [.sticky, .modifier 0]).1 true true [.letter 4]).1.stick = .none ∧
    (generate_report (generate_report (generate_report reportInit true true
        [.sticky, .modifier 0]).1 true true [.letter 4]).1 true true
        [.modifier 2]).1.key_report.modifier =
      ([ReportCodes.modifier 2].foldl (process_code true true)
        TickAcc.init).kr.modifier :=
  sticky_latch_assign reportInit true true true true true true
    [.sticky, .modifier 0] [.letter 4] [.modifier 2]
    (by decide) (by decide) (fun c => by simp) (by decide) (by decide)
    ⟨4, by decide⟩ (by decide)

end Keyboards

namespace Keyboards

/-! ## Analog key-state machines (key_lib/src/position.rs)

`BUFFER_SIZE = 1` in the source, so the rolling-average buffer is a single
cell and the averaged reading equals the incoming sample
(`sum / BUFFER_SIZE = pos`).

The threshold computations are `f32` expressions truncated to `u16`:
`(0.30 * dif) as u16`, `(0.35 * dif) as u16`, `(0.1 * dif) as u16` with
`dif ≤ 65535`.  They are modelled by the exact rational floors
`3*d/10`, `7*d/20`, `d/10`: for every integer `d < 2^16` the `f32` product
differs from the exact rational by a relative error < 2^-23, i.e. by less
than 0.01 in absolute value, while any non-integral exact value is at least
0.05 away from an integer (the fractional step of `3d/10`, `7d/20`, `d/10`
is ≥ 1/20) and an integral exact value `I` rounds back to the float `I`
(the error `I·2^-23·c` stays below half an ulp of `I`), so the truncations
agree for every representable `d`. -/

def DEFAULT_HIGH : Nat := 1700
def DEFAULT_LOW : Nat := 1400

/-- `(DEFAULT_RELEASE_SCALE * dif) as u16` with `DEFAULT_RELEASE_SCALE =
0.30`. -/
def relScale (d : Nat) : Nat := 3 * d / 10

/-- `(DEFAULT_ACTUATE_SCALE * dif) as u16` with `DEFAULT_ACTUATE_SCALE =
0.35`. -/
def actScale (d : Nat) : Nat := 7 * d / 20

/-- `(TOLERANCE_SCALE * dif) as u16` with `TOLERANCE_SCALE = 0.1`. -/
def tolScale (d : Nat) : Nat := d / 10

/-- `DigitalPosition` (`position.rs`): hall-effect switch behaving like a
mechanical one.  `buffer` is the single cell of the size-1 rolling buffer
(`buffer_pos` is always 0 and is omitted). -/
structure DigitalPosition where
  buffer : Nat
  release_point : Nat
  actuation_point : Nat
  lowest_point : Nat
  highest_point : Nat
  pressed : Bool
deriving DecidableEq, Repr

/-- `DigitalPosition::DEFAULT`. -/
def DigitalPosition.DEFAULT : DigitalPosition :=
  { buffer := 0
    release_point := DEFAULT_HIGH - relScale (DEFAULT_HIGH - DEFAULT_LOW)
    actuation_point := DEFAULT_HIGH - actScale (DEFAULT_HIGH - DEFAULT_LOW)
    lowest_point := DEFAULT_LOW
    highest_point := DEFAULT_HIGH
    pressed := false }

/-- `DigitalPosition::calibrate`: widen the observed extrema and, when one
changed, recompute both thresholds from the fixed scale factors. -/
def DigitalPosition.calibrate (s : DigitalPosition) (buf : Nat) :
    DigitalPosition :=
  if s.highest_point < buf then
    let dif := buf - s.lowest_point
    { s with highest_point := buf
             release_point := buf - relScale dif
             actuation_point := buf - actScale dif }
  else if buf < s.lowest_point then
    let dif := s.highest_point - buf
    { s with lowest_point := buf
             release_point := s.highest_point - relScale dif
             actuation_point := s.highest_point - actScale dif }
  else s

/-- `DigitalPosition::update_buf`: store the sample (the average is the
sample itself, `BUFFER_SIZE = 1`), calibrate on it, then apply the
hysteresis: press at `avg ≤ actuation_point`, release at
`avg > release_point`, otherwise keep the previous state. -/
def DigitalPosition.update_buf (s : DigitalPosition) (pos : Nat) :
    DigitalPosition :=
  let s1 := DigitalPosition.calibrate { s with buffer := pos } pos
  if pos ≤ s1.actuation_point then { s1 with pressed := true }
  else if s1.release_point < pos then { s1 with pressed := false }
  else s1

/-- `DigitalPosition::reset`: refill the buffer with the highest point and
clear the press latch, keeping the calibration extrema. -/
def DigitalPosition.reset (s : DigitalPosition) : DigitalPosition :=
  { s with buffer := s.highest_point, pressed := false }

/-- States reachable from `DEFAULT` through the switch's operations (the
`setup` calibration pass is a `calibrate` call). -/
inductive DigitalPosition.Reach : DigitalPosition → Prop where
  | default : DigitalPosition.Reach DigitalPosition.DEFAULT
  | update (s : DigitalPosition) (x : Nat) :
      DigitalPosition.Reach s → DigitalPosition.Reach (s.update_buf x)
  | cal (s : DigitalPosition) (x : Nat) :
      DigitalPosition.Reach s → DigitalPosition.Reach (s.calibrate x)
  | res (s : DigitalPosition) :
      DigitalPosition.Reach s → DigitalPosition.Reach s.reset

/-- The calibration invariant: extrema only widen beyond the 1400/1700
defaults, and both thresholds always equal their scale-formula values. -/
def DigitalPosition.Inv (s : DigitalPosition) : Prop :=
  s.lowest_point ≤ DEFAULT_LOW ∧ DEFAULT_HIGH ≤ s.highest_point ∧
  s.release_point =
    s.highest_point - relScale (s.highest_point - s.lowest_point) ∧
  s.actuation_point =
    s.highest_point - actScale (s.highest_point - s.lowest_point)

theorem DigitalPosition.Inv_default : DigitalPosition.DEFAULT.Inv := by
  refine ⟨le_refl _, le_refl _, rfl, rfl⟩

theorem DigitalPosition.calibrate_Inv (s : DigitalPosition) (b : Nat)
    (h : s.Inv) : (s.calibrate b).Inv := by
  obtain ⟨h1, h2, h3, h4⟩ := h
  rw [DigitalPosition.calibrate]
  split_ifs with c1 c2
  · exact ⟨h1, by simp only; omega, rfl, rfl⟩
  · exact ⟨by simp only; omega, h2, rfl, rfl⟩
  · exact ⟨h1, h2, h3, h4⟩

theorem DigitalPosition.calibrate_pressed (s : DigitalPosition) (b : Nat) :
    (s.calibrate b).pressed = s.pressed := by
  rw [DigitalPosition.calibrate]
  split_ifs <;> rfl

theorem DigitalPosition.update_Inv (s : DigitalPosition) (x : Nat)
    (h : s.Inv) : (s.update_buf x).Inv := by
  have hc : (DigitalPosition.calibrate { s with buffer := x } x).Inv :=
    DigitalPosition.calibrate_Inv { s with buffer := x } x h
  rw [DigitalPosition.update_buf]
  split_ifs <;> exact hc

theorem DigitalPosition.Reach_Inv (s : DigitalPosition)
    (h : s.Reach) : s.Inv := by
  induction h with
  | default => exact DigitalPosition.Inv_default
  | update s x _ ih => exact DigitalPosition.update_Inv s x ih
  | cal s x _ ih => exact DigitalPosition.calibrate_Inv s x ih
  | res s _ ih => exact ih

/-- With `dif ≥ 300` the 0.30-scaled cut is strictly smaller than the
0.35-scaled cut. -/
theorem relScale_lt_actScale (d : Nat) (hd : 20 ≤ d) :
    relScale d < actScale d := by
  rw [relScale, actScale]
  have h1 : 3 * d / 10 = 6 * d / 20 := by
    have : 6 * d = 2 * (3 * d) := by ring
    rw [this, show (20 : Nat) = 2 * 10 from rfl, Nat.mul_div_mul_left _ _ (by omega)]
  have h2 : (6 * d + 20) / 20 = 6 * d / 20 + 1 := Nat.add_div_right _ (by omega)
  have h3 : (6 * d + 20) / 20 ≤ 7 * d / 20 := Nat.div_le_div_right (by omega)
  omega

theorem relScale_le (d : Nat) : relScale d ≤ d := by
  rw [relScale]
  calc 3 * d / 10 ≤ 10 * d / 10 := Nat.div_le_div_right (by omega)
    _ = d := Nat.mul_div_cancel_left d (by omega)

theorem actScale_le (d : Nat) : actScale d ≤ d := by
  rw [actScale]
  calc 7 * d / 20 ≤ 20 * d / 20 := Nat.div_le_div_right (by omega)
    _ = d := Nat.mul_div_cancel_left d (by omega)

/-- Any invariant state keeps a strict hysteresis band. -/
theorem DigitalPosition.release_gt_actuation (s : DigitalPosition)
    (h : s.Inv) : s.actuation_point < s.release_point := by
  obtain ⟨h1, h2, h3, h4⟩ := h
  have hd : 300 ≤ s.highest_point - s.lowest_point := by
    rw [DEFAULT_LOW] at h1; rw [DEFAULT_HIGH] at h2; omega
  have hlt := relScale_lt_actScale (s.highest_point - s.lowest_point) (by omega)
  have hle := actScale_le (s.highest_point - s.lowest_point)
  omega

end Keyboards

namespace Keyboards

/-- `update_buf` folded over a sample sequence. -/
def DigitalPosition.digitalRun (s : DigitalPosition) (xs : List Nat) :
    DigitalPosition :=
  xs.foldl DigitalPosition.update_buf s

/-- Derived specification: some prefix sample crossed (at its own step) the
then-current post-calibration actuation point. -/
def DigitalPosition.crossed : DigitalPosition → List Nat → Bool
  | _, [] => false
  | s, x :: rest =>
    if x ≤ (DigitalPosition.calibrate { s with buffer := x } x).actuation_point
    then true
    else DigitalPosition.crossed (s.update_buf x) rest

/-- Calibrating on a sample below the release point cannot push the release
point below that sample. -/
theorem DigitalPosition.calibrate_release_ge (s : DigitalPosition) (x : Nat)
    (hinv : s.Inv) (hx : x ≤ s.release_point) :
    x ≤ (s.calibrate x).release_point := by
  obtain ⟨h1, h2, h3, h4⟩ := hinv
  have hrel := relScale_le (s.highest_point - s.lowest_point)
  have hxh : x ≤ s.highest_point := by omega
  rw [DigitalPosition.calibrate]
  split_ifs with c1 c2
  · omega
  · have := relScale_le (s.highest_point - x)
    simp only
    omega
  · exact hx

theorem DigitalPosition.update_pressed_stay (s : DigitalPosition) (x : Nat)
    (hinv : s.Inv) (hp : s.pressed = true) (hx : x ≤ s.release_point) :
    (s.update_buf x).pressed = true ∧ x ≤ (s.update_buf x).release_point := by
  have hinv' : DigitalPosition.Inv { s with buffer := x } := hinv
  have hx1 : x ≤ (DigitalPosition.calibrate { s with buffer := x } x).release_point :=
    DigitalPosition.calibrate_release_ge { s with buffer := x } x hinv' hx
  have hp1 : (DigitalPosition.calibrate { s with buffer := x } x).pressed = true := by
    rw [DigitalPosition.calibrate_pressed]
    exact hp
  rw [DigitalPosition.update_buf]
  split_ifs with c1 c2
  · exact ⟨rfl, hx1⟩
  · omega
  · exact ⟨hp1, hx1⟩

/-- A pressed switch stays pressed along a non-increasing sample sequence
whose first sample does not exceed the release point. -/
theorem DigitalPosition.run_stays_pressed :
    ∀ (xs : List Nat) (s : DigitalPosition), s.Inv → s.pressed = true →
    (∀ y ∈ xs.head?, y ≤ s.release_point) →
    xs.Chain' (fun a b => b ≤ a) →
    (s.digitalRun xs).pressed = true := by
  intro xs
  induction xs with
  | nil => intro s _ hp _ _; exact hp
  | cons x rest ih =>
    intro s hinv hp hhead hchain
    have hx : x ≤ s.release_point := hhead x rfl
    obtain ⟨hp', hx'⟩ := DigitalPosition.update_pressed_stay s x hinv hp hx
    rw [List.chain'_cons'] at hchain
    have hinv' : (s.update_buf x).Inv := DigitalPosition.update_Inv s x hinv
    rw [DigitalPosition.digitalRun, List.foldl_cons]
    exact ih (s.update_buf x) hinv' hp'
      (fun y hy => le_trans (hchain.1 y hy) hx') hchain.2

theorem DigitalPosition.update_not_pressed (s : DigitalPosition) (x : Nat)
    (hp : s.pressed = false)
    (hnt : ¬ x ≤ (DigitalPosition.calibrate { s with buffer := x } x).actuation_point) :
    (s.update_buf x).pressed = false := by
  have hp1 : (DigitalPosition.calibrate { s with buffer := x } x).pressed = false := by
    rw [DigitalPosition.calibrate_pressed]
    exact hp
  rw [DigitalPosition.update_buf]
  split_ifs with c1
  · rfl
  · exact hp1

/-- The unpressed-run characterization: along a non-increasing sequence the
press state after the run is exactly the crossing indicator. -/
theorem DigitalPosition.run_pressed_eq_crossed :
    ∀ (xs : List Nat) (s : DigitalPosition), s.Inv → s.pressed = false →
    xs.Chain' (fun a b => b ≤ a) →
    (s.digitalRun xs).pressed = DigitalPosition.crossed s xs := by
  intro xs
  induction xs with
  | nil => intro s _ hp _; exact hp
  | cons x rest ih =>
    intro s hinv hp hchain
    rw [List.chain'_cons'] at hchain
    have hinv1 : DigitalPosition.Inv { s with buffer := x } := hinv
    have hinvc : (DigitalPosition.calibrate { s with buffer := x } x).Inv :=
      DigitalPosition.calibrate_Inv { s with buffer := x } x hinv1
    have hinv' : (s.update_buf x).Inv := DigitalPosition.update_Inv s x hinv
    rw [DigitalPosition.digitalRun, List.foldl_cons, DigitalPosition.crossed]
    split_ifs with htrig
    · -- the sample crossed: the step presses, and the press persists
      have hp' : (s.update_buf x).pressed = true := by
        rw [DigitalPosition.update_buf]
        rw [if_pos htrig]
      have hband :=
        DigitalPosition.release_gt_actuation _ hinvc
      have hupd : (s.update_buf x).release_point =
          (DigitalPosition.calibrate { s with buffer := x } x).release_point := by
        rw [DigitalPosition.update_buf]
        split_ifs <;> rfl
      have hxrel : x ≤ (s.update_buf x).release_point := by
        rw [hupd]
        omega
      exact DigitalPosition.run_stays_pressed rest (s.update_buf x) hinv' hp'
        (fun y hy => le_trans (hchain.1 y hy) hxrel) hchain.2
    · have hp' : (s.update_buf x).pressed = false :=
        DigitalPosition.update_not_pressed s x hp htrig
      exact ih (s.update_buf x) hinv' hp' hchain.2

/-- C6: from any state reachable by calibration (extrema starting at the
1400/1700 defaults), feeding a monotonically non-increasing sample sequence
to an unpressed `DigitalPosition` makes `is_pressed` true exactly when some
sample crosses the then-current actuation point — it turns on at the first
crossing sample and stays on for the rest of the decreasing sequence (no
later sample can exceed the release point) — and `release_point >
actuation_point` holds in every reachable state. -/
theorem digitalPosition_press_spec (s : DigitalPosition) (xs : List Nat)
    (hreach : s.Reach) (hnp : s.pressed = false)
    (hdec : xs.Chain' (fun a b => b ≤ a)) :
    (s.digitalRun xs).pressed = DigitalPosition.crossed s xs ∧
    s.actuation_point < s.release_point := by
  have hinv := DigitalPosition.Reach_Inv s hreach
  exact ⟨DigitalPosition.run_pressed_eq_crossed xs s hinv hnp hdec,
    DigitalPosition.release_gt_actuation s hinv⟩

/-- C6 witness. -/
theorem digitalPosition_press_spec_witness :
    (DigitalPosition.DEFAULT.digitalRun [1650, 1600, 1500]).pressed =
      DigitalPosition.crossed DigitalPosition.DEFAULT [1650, 1600, 1500] ∧
    DigitalPosition.DEFAULT.actuation_point <
      DigitalPosition.DEFAULT.release_point :=
  digitalPosition_press_spec DigitalPosition.DEFAULT [1650, 1600, 1500]
    DigitalPosition.Reach.default rfl (by simp [List.chain'_cons])

end Keyboards

namespace Keyboards

/-- Wrapping `u16` subtraction (`last_pos - tolerance` in the source is
`u16` arithmetic; firmware builds wrap on overflow). -/
def wsub16 (a b : Nat) : Nat := (a % 65536 + 65536 - b % 65536) % 65536

/-- Wrapping `u16` addition. -/
def wadd16 (a b : Nat) : Nat := (a + b) % 65536

/-- `WootingPosition` (`position.rs`): the rapid-trigger switch.  `buffer`
is again the single cell of the size-1 rolling buffer. -/
structure WootingPosition where
  buffer : Nat
  release_point : Nat
  actuation_point : Nat
  lowest_point : Nat
  highest_point : Nat
  pressed : Bool
  last_pos : Nat
  wooting : Bool
  tolerance : Nat
deriving DecidableEq, Repr

/-- `WootingPosition::DEFAULT`. -/
def WootingPosition.DEFAULT : WootingPosition :=
  { buffer := 0
    last_pos := 0
    release_point := DEFAULT_HIGH - relScale (DEFAULT_HIGH - DEFAULT_LOW)
    actuation_point := DEFAULT_HIGH - actScale (DEFAULT_HIGH - DEFAULT_LOW)
    lowest_point := DEFAULT_LOW
    highest_point := DEFAULT_HIGH
    pressed := false
    wooting := false
    tolerance := tolScale (DEFAULT_HIGH - DEFAULT_LOW) }

/-- `WootingPosition::calibrate`: like the digital variant, additionally
refreshing the re-trigger tolerance. -/
def WootingPosition.calibrate (s : WootingPosition) (buf : Nat) :
    WootingPosition :=
  if s.highest_point < buf then
    let dif := buf - s.lowest_point
    { s with highest_point := buf
             release_point := buf - relScale dif
             actuation_point := buf - actScale dif
             tolerance := tolScale dif }
  else if buf < s.lowest_point then
    let dif := s.highest_point - buf
    { s with lowest_point := buf
             release_point := s.highest_point - relScale dif
             actuation_point := s.highest_point - actScale dif
             tolerance := tolScale dif }
  else s

/-- `WootingPosition::update_buf`: full release above `release_point`,
bottom-out below `lowest_point` (both recalibrating), otherwise the
rapid-trigger window — press when the sample moved down by more than
`tolerance` from `last_pos` or is at/below `actuation_point` while not
already latched (`wooting` false); release when it moved up by more than
`tolerance`; otherwise leave the state alone. -/
def WootingPosition.update_buf (s : WootingPosition) (pos : Nat) :
    WootingPosition :=
  let s0 : WootingPosition := { s with buffer := pos }
  if s0.release_point < pos then
    WootingPosition.calibrate
      { s0 with last_pos := pos, wooting := false, pressed := false } pos
  else if pos < s0.lowest_point then
    WootingPosition.calibrate
      { s0 with last_pos := pos, wooting := true, pressed := true } pos
  else if pos < wsub16 s0.last_pos s0.tolerance ∨
      (pos ≤ s0.actuation_point ∧ s0.wooting = false) then
    { s0 with last_pos := pos, wooting := true, pressed := true }
  else if wadd16 s0.last_pos s0.tolerance < pos then
    { s0 with last_pos := pos, pressed := false }
  else s0

/-- C7: for a sample strictly between `lowest_point` and `release_point`
(with the `u16` window arithmetic not wrapping: `tolerance ≤ last_pos` and
`last_pos + tolerance < 2^16`), `WootingPosition::update_buf` asserts a
press exactly when the tolerance-window formula holds — the averaged sample
is strictly below `last_pos - tolerance`, OR it is ≤ `actuation_point`
while the switch is not already latched (`wooting` false).  If it holds the
step latches (`wooting`), presses and records `last_pos`; if not, the step
asserts no new press (it can only keep or clear the previous state) — so a
partial release of less than `tolerance` followed by a drop of more than
`tolerance` re-asserts the press without the sample returning to
`lowest_point`. -/
theorem wooting_trigger_window (s : WootingPosition) (pos : Nat)
    (hlow : s.lowest_point < pos)
    (hrel : pos < s.release_point)
    (htol : s.tolerance ≤ s.last_pos)
    (hlp : s.last_pos < 65536)
    (ht16 : s.tolerance < 65536)
    (hadd : s.last_pos + s.tolerance < 65536) :
    ((pos < s.last_pos - s.tolerance ∨
        (pos ≤ s.actuation_point ∧ s.wooting = false)) →
      (s.update_buf pos).pressed = true ∧
      (s.update_buf pos).wooting = true ∧
      (s.update_buf pos).last_pos = pos) ∧
    (¬(pos < s.last_pos - s.tolerance ∨
        (pos ≤ s.actuation_point ∧ s.wooting = false)) →
      ((s.update_buf pos).pressed = true → s.pressed = true)) := by
  have hws : wsub16 s.last_pos s.tolerance = s.last_pos - s.tolerance := by
    rw [wsub16, Nat.mod_eq_of_lt hlp, Nat.mod_eq_of_lt ht16]
    have h1 : s.last_pos + 65536 - s.tolerance = 65536 + (s.last_pos - s.tolerance) := by
      omega
    rw [h1, Nat.add_mod_left, Nat.mod_eq_of_lt (by omega)]
  have hwa : wadd16 s.last_pos s.tolerance = s.last_pos + s.tolerance :=
    Nat.mod_eq_of_lt hadd
  constructor
  · intro htrig
    rw [WootingPosition.update_buf]
    rw [if_neg (by simp only; omega)]
    rw [if_neg (by simp only; omega)]
    rw [if_pos (by simp only [hws]; exact htrig)]
    exact ⟨rfl, rfl, rfl⟩
  · intro htrig hpress
    rw [WootingPosition.update_buf] at hpress
    rw [if_neg (by simp only; omega)] at hpress
    rw [if_neg (by simp only; omega)] at hpress
    rw [if_neg (by simp only [hws]; exact htrig)] at hpress
    split_ifs at hpress with c
    exact hpress

/-- C7 witness: a partial release then re-drop.  After a press the sample
rose to 1540 (release: `1540 > 1510 + tolerance 30` cleared `pressed`,
keeping the `wooting` latch), then drops to 1505 `< 1540 - 30`: the
trajectory branch re-asserts the press even though 1505 is far above
`lowest_point = 1400`. -/
theorem wooting_trigger_window_witness :
    ((1505 < 1540 - 30 ∨
        (1505 ≤ 1595 ∧ true = false)) →
      (WootingPosition.update_buf
        { buffer := 1540, release_point := 1610, actuation_point := 1595,
          lowest_point := 1400, highest_point := 1700, pressed := false,
          last_pos := 1540, wooting := true, tolerance := 30 } 1505).pressed = true ∧
      (WootingPosition.update_buf
        { buffer := 1540, release_point := 1610, actuation_point := 1595,
          lowest_point := 1400, highest_point := 1700, pressed := false,
          last_pos := 1540, wooting := true, tolerance := 30 } 1505).wooting = true ∧
      (WootingPosition.update_buf
        { buffer := 1540, release_point := 1610, actuation_point := 1595,
          lowest_point := 1400, highest_point := 1700, pressed := false,
          last_pos := 1540, wooting := true, tolerance := 30 } 1505).last_pos = 1505) ∧
    ((1505 < 1540 - 30 ∨ (1505 ≤ 1595 ∧ true = false)) ∧
      (WootingPosition.update_buf
        { buffer := 1540, release_point := 1610, actuation_point := 1595,
          lowest_point := 1400, highest_point := 1700, pressed := false,
          last_pos := 1540, wooting := true, tolerance := 30 } 1505).pressed = true) := by
  have h := wooting_trigger_window
    { buffer := 1540, release_point := 1610, actuation_point := 1595,
      lowest_point := 1400, highest_point := 1700, pressed := false,
      last_pos := 1540, wooting := true, tolerance := 30 } 1505
    (by decide) (by decide) (by decide) (by decide) (by decide) (by decide)
  exact ⟨h.1, Or.inl (by decide), (h.1 (Or.inl (by decide))).1⟩

end Keyboards
